import Mathlib

/-!
# oooScheduler: a shallow embedding of `p1.cpp`

The program is a cycle-by-cycle simulator of a seven stage out-of-order
pipeline.  This file translates its data structures and its stage functions
(`commit`, `writeback`, `issue`, `dispatch`, `rename`, `decode`, `fetch`) and
the driver loop of `main` into Lean, and proves properties of them.

Modelling conventions.

* Memory.  Every `iRecord_t *` is an address (`Nat`); `NOP` (`NULL`) is `none`.
  Address `k < 256` is `&instructions[k]`; the copies that `decode` allocates
  with `malloc` get the addresses `256, 257, ...` (`memNext`).  The record
  memory is a total map `mem : Nat → iRecord_t`.  In the same way each
  `ROB_t *` is an address into `robMem`, and `robNext` is the next address
  `malloc` hands out.  Two deque entries may hold the same address: this
  aliasing is part of the behaviour of the program.
* Arrays (`mapTable`, `readyTable`, the latch array `thePipelineState`) are
  total maps indexed by `Nat`; deques are lists, front at the head.
* `unsigned int` counters are natural numbers reduced modulo `2 ^ 32` where the
  source increments them, `iqAge` (`unsigned long long`) modulo `2 ^ 64`;
  `int ↔ unsigned int` conversions are `toU32` and `toI32`.
* `readyTable` holds only the values `true`/`false` in the source and is
  modelled with `Bool` cells.
* Dereferencing `NULL` and reading the fields of the uninitialised
  `slotEntry` are undefined behaviour: the stage returns `none`.
* Output (`printf`, `cout`) is not modelled; `IQpull--` at the end of the
  selection of `issue` only feeds a `printf` and is left out.
* The array `instructions` has 256 entries: the driver is meant for traces of
  at most 256 lines and an issue width of at most 256.
-/

namespace OooScheduler

/-! ## Machine integers -/

/-- Conversion of an `int` to `unsigned int`. -/
def toU32 (x : Int) : Nat := (x % 4294967296).toNat

/-- Conversion of an `unsigned int` to `int`. -/
def toI32 (n : Nat) : Int :=
  if n % 4294967296 < 2147483648 then ((n % 4294967296 : Nat) : Int)
  else ((n % 4294967296 : Nat) : Int) - 4294967296

/-- An `int` used as an array subscript. -/
def idx (x : Int) : Nat := x.toNat

/-- Update of one cell of a total map: `f[k] = v`. -/
def upd {α : Type} (f : Nat → α) (k : Nat) (v : α) : Nat → α :=
  fun q => if q = k then v else f q

/-- The loop `for (int i = 0; i < n; i++) body(i)`. -/
def forLoop {α : Type} : Nat → (Nat → α → α) → α → α
  | 0, _, a => a
  | n + 1, body, a => body n (forLoop n body a)

/-- The loop `for (int i = 0; i < n; i++) body(i)` for a body that can run
into undefined behaviour. -/
def forLoopM {α : Type} : Nat → (Nat → α → Option α) → α → Option α
  | 0, _, a => some a
  | n + 1, body, a => (forLoopM n body a).bind (body n)

/-! ## Data model -/

/-- The constant `AREG_COUNT`. -/
def AREG_COUNT : Nat := 32

/-- The struct `iRecord_t`: one instruction and its bookkeeping. -/
structure iRecord_t where
  iType : Char
  op1 : Int
  op2 : Int
  op3 : Int
  op1_r : Int
  op2_r : Int
  op3_r : Int
  instrComplete : Nat
  fetchIndex : Nat
  F : Nat
  Dc : Nat
  R : Nat
  Di : Nat
  IS : Nat
  W : Nat
  C : Nat
deriving DecidableEq, Repr

/-- The struct `frontEndPipe_t`: one slot of every stage latch. -/
structure frontEndPipe_t where
  F : Option Nat
  Dc : Option Nat
  R : Option Nat
  Di : Option Nat
  IS : Option Nat
  W : Option Nat
  C : Option Nat
deriving DecidableEq, Repr

/-- The struct `ROB_t`. -/
structure ROB_t where
  instr : Nat
  ready : Bool
  committed : Bool
deriving DecidableEq, Repr

/-- The struct `iqEntry_t`. -/
structure iqEntry_t where
  instr : Nat
  src1_ready : Bool
  src2_ready : Bool
  age : Nat
deriving DecidableEq, Repr

/-- The global variables of the program. -/
structure St where
  ISSUE_WIDTH : Nat
  PREG_COUNT : Nat
  mem : Nat → iRecord_t
  memNext : Nat
  thePipelineState : Nat → frontEndPipe_t
  mapTable : Nat → Nat
  readyTable : Nat → Bool
  freeList : List Nat
  robMem : Nat → ROB_t
  robNext : Nat
  reorderBuff : List Nat
  issueQueue : List iqEntry_t
  iqAge : Nat
  wBQueue : List Nat
  commitQueue : List Nat

/-- A record of static storage before the program writes to it: all zero. -/
def zeroRecord : iRecord_t :=
  { iType := Char.ofNat 0, op1 := 0, op2 := 0, op3 := 0, op1_r := 0, op2_r := 0, op3_r := 0,
    instrComplete := 0, fetchIndex := 0, F := 0, Dc := 0, R := 0, Di := 0, IS := 0, W := 0,
    C := 0 }

/-- A latch slot with `NOP` in every stage. -/
def nopSlot : frontEndPipe_t :=
  { F := none, Dc := none, R := none, Di := none, IS := none, W := none, C := none }

/-! ## Commit -/

/-- The variables the loop of `commit` changes.  `retired` is not a variable
of the source: it records, in order, the instruction that
`pipe[commitPull].C` is pointed at in each retirement. -/
structure CommitLoop where
  st : St
  committedInsts : Nat
  commitPull : Nat
  retired : List Nat

/-- The branch of `commit` that retires the ROB head `r`. -/
def retire (cycle : Nat) (l : CommitLoop) (r : Nat) : CommitLoop :=
  let p := (l.st.robMem r).instr
  let pipe1 := upd l.st.thePipelineState l.commitPull
    { l.st.thePipelineState l.commitPull with C := some p }
  let mem1 := upd l.st.mem p { l.st.mem p with C := cycle }
  { st := { l.st with
              thePipelineState := pipe1
              mem := mem1
              freeList := l.st.freeList ++ [toU32 (mem1 p).op1_r]
              reorderBuff := l.st.reorderBuff.tail }
    committedInsts := (l.committedInsts + 1) % 4294967296
    commitPull := l.commitPull + 1
    retired := l.retired ++ [p] }

/-- One iteration of the `for` loop of `commit`. -/
def commitBody (cycle : Nat) (_i : Nat) (l : CommitLoop) : CommitLoop :=
  match l.st.reorderBuff with
  | [] => l
  | r :: _ =>
    if (l.st.robMem r).ready = true ∧ l.commitPull < l.st.ISSUE_WIDTH then retire cycle l r
    else l

/-- The `for` loop of `commit`. -/
def commitLoop (s : St) (committedInsts cycle : Nat) : CommitLoop :=
  forLoop s.ISSUE_WIDTH (commitBody cycle)
    { st := s, committedInsts := committedInsts, commitPull := 0, retired := [] }

/-- The function `commit`: the new state and the returned count. -/
def commit (s : St) (committedInsts cycle : Nat) : St × Nat :=
  ((commitLoop s committedInsts cycle).st, (commitLoop s committedInsts cycle).committedInsts)

/-! ## Writeback -/

/-- One iteration of the search loop of `writeback` over the ROB. -/
def markRob (tempRec : Nat) (j : Nat) (s : St) : St :=
  match s.reorderBuff[j]? with
  | none => s
  | some r =>
    if (s.mem (s.robMem r).instr).op1_r = (s.mem tempRec).op1_r then
      { s with
          robMem := upd s.robMem r { s.robMem r with ready := true }
          readyTable := upd s.readyTable (idx (s.mem tempRec).op1_r) true }
    else s

/-- One iteration of the outer `for` loop of `writeback`. -/
def writebackBody (cycle : Nat) (i : Nat) (s : St) : St :=
  match s.wBQueue with
  | tempRec :: rest =>
    let s1 : St := { s with
      mem := upd s.mem tempRec { s.mem tempRec with W := cycle }
      wBQueue := rest
      commitQueue := s.commitQueue ++ [tempRec] }
    if s1.reorderBuff.isEmpty = false then
      forLoop s1.reorderBuff.length (markRob tempRec) s1
    else s1
  | [] =>
    let pipe1 := upd s.thePipelineState i { s.thePipelineState i with C := none }
    { s with thePipelineState := pipe1 }

/-- The function `writeback`. -/
def writeback (s : St) (cycle : Nat) : St :=
  forLoop s.ISSUE_WIDTH (writebackBody cycle) s

/-! ## Issue -/

/-- The variables the selection loops of `issue` change. -/
structure IssueLoop where
  st : St
  IQpull : Nat
  wakeupQ : List Int

/-- The `while` loop of `issue`, started at index `j`; `fuel` bounds the
number of iterations. -/
def issueScan (cycle : Nat) : Nat → Nat → IssueLoop → IssueLoop
  | 0, _, l => l
  | fuel + 1, j, l =>
    if l.IQpull < l.st.ISSUE_WIDTH then
      match l.st.issueQueue[j]? with
      | none => l
      | some e =>
        if e.src1_ready = true ∧ e.src2_ready = true then
          let mem1 := upd l.st.mem e.instr { l.st.mem e.instr with IS := cycle }
          issueScan cycle fuel j
            { st := { l.st with
                        mem := mem1
                        wBQueue := l.st.wBQueue ++ [e.instr]
                        issueQueue := l.st.issueQueue.eraseIdx j }
              IQpull := l.IQpull + 1
              wakeupQ := l.wakeupQ ++ [(mem1 e.instr).op1_r, (mem1 e.instr).op2_r] }
        else issueScan cycle fuel (j + 1) l
    else l

/-- One iteration of the outer `for` loop of `issue`. -/
def issueBody (cycle : Nat) (_i : Nat) (l : IssueLoop) : IssueLoop :=
  if l.st.issueQueue.isEmpty = false then
    issueScan cycle l.st.issueQueue.length 0 l
  else l

/-- One iteration of the inner wakeup loop of `issue`. -/
def wakeEntry (tag : Int) (j : Nat) (s : St) : St :=
  match s.issueQueue[j]? with
  | none => s
  | some e =>
    let e1 : iqEntry_t :=
      if (s.mem e.instr).op2_r = tag then { e with src1_ready := true } else e
    let e2 : iqEntry_t :=
      if (s.mem e1.instr).op3_r = tag then { e1 with src2_ready := true } else e1
    { s with issueQueue := s.issueQueue.set j e2 }

/-- One iteration of the outer wakeup loop of `issue`. -/
def wakeTag (wakeupQ : List Int) (i : Nat) (s : St) : St :=
  match wakeupQ[i]? with
  | none => s
  | some tag => forLoop s.issueQueue.length (wakeEntry tag) s

/-- The selection part of `issue` (the first `for` loop). -/
def issueSelect (s : St) (cycle : Nat) : IssueLoop :=
  forLoop s.ISSUE_WIDTH (issueBody cycle) { st := s, IQpull := 0, wakeupQ := [] }

/-- The function `issue`. -/
def issue (s : St) (cycle : Nat) : St :=
  let l := issueSelect s cycle
  forLoop l.wakeupQ.length (wakeTag l.wakeupQ) l.st

/-! ## Dispatch -/

/-- The variables the loop of `dispatch` changes: the globals and the two
flags of the local `slotEntry` (`none` while they are uninitialised). -/
structure DispatchLoop where
  st : St
  slotFlags : Option (Bool × Bool)

/-- One iteration of the `for` loop of `dispatch`; `ROBentry` is the address
of the one `ROB_t` the call allocated. -/
def dispatchBody (cycle : Nat) (ROBentry : Nat) (i : Nat) (l : DispatchLoop) :
    Option DispatchLoop :=
  let s := l.st
  match (s.thePipelineState i).Di with
  | none => some l
  | some p =>
    let mem1 := upd s.mem p { s.mem p with Di := cycle }
    let r := mem1 p
    let sw : Option (Bool × Bool) × (Nat → Bool) :=
      if r.iType = 'R' then
        (some (s.readyTable (idx r.op2_r), s.readyTable (idx r.op3_r)),
          upd s.readyTable (idx r.op1_r) false)
      else if r.iType = 'I' then
        (some (s.readyTable (idx r.op2_r), true), upd s.readyTable (idx r.op1_r) false)
      else if r.iType = 'L' then
        (some (true, s.readyTable (idx r.op3_r)), upd s.readyTable (idx r.op1_r) false)
      else if r.iType = 'S' then
        (some (true, true), s.readyTable)
      else (l.slotFlags, s.readyTable)
    let ready2 : Nat → Bool :=
      if r.op1_r = 0 then upd sw.2 (idx r.op1_r) false else sw.2
    match sw.1 with
    | none => none
    | some flags =>
      let slotEntry : iqEntry_t :=
        { instr := p, src1_ready := flags.1, src2_ready := flags.2,
          age := s.iqAge % 4294967296 }
      some
        { st := { s with
                    mem := mem1
                    readyTable := ready2
                    iqAge := (s.iqAge + 1) % 18446744073709551616
                    robMem := upd s.robMem ROBentry
                      { instr := p, committed := false, ready := false }
                    issueQueue := s.issueQueue ++ [slotEntry]
                    reorderBuff := s.reorderBuff ++ [ROBentry] }
          slotFlags := some flags }

/-- The function `dispatch`. -/
def dispatch (s : St) (cycle : Nat) : Option St :=
  (forLoopM s.ISSUE_WIDTH (dispatchBody cycle s.robNext)
    { st := { s with robNext := s.robNext + 1 }, slotFlags := none }).map (fun l => l.st)

/-! ## Rename -/

/-- The variables the loop of `rename` changes. -/
structure RenameLoop where
  st : St
  renameStall : Nat

/-- The four statements that allocate a destination register in `rename`:
the head `h` of the free list (whose tail is `t`) becomes `op1_r` of the
record at `p`. -/
def allocDst (s : St) (p : Nat) (h : Nat) (t : List Nat) : St :=
  let mem1 := upd s.mem p { s.mem p with op1_r := toI32 h }
  { s with
      mem := mem1
      freeList := t
      readyTable := upd s.readyTable (idx (mem1 p).op1_r) false
      mapTable := upd s.mapTable (idx (mem1 p).op1) (toU32 (mem1 p).op1_r) }

/-- The `switch` of `rename` for the record at `p`, entered with a non-empty
free list `h :: t`. -/
def renameSwitch (s : St) (p : Nat) (h : Nat) (t : List Nat) : St :=
  let r := s.mem p
  if r.iType = 'R' then
    let r1 : iRecord_t :=
      { r with op2_r := toI32 (s.mapTable (idx r.op2)), op3_r := toI32 (s.mapTable (idx r.op3)) }
    let s1 : St := { s with mem := upd s.mem p r1 }
    if r.op1 ≠ 0 then allocDst s1 p h t else s1
  else if r.iType = 'I' then
    let s1 := allocDst s p h t
    let r1 := s1.mem p
    let r2 : iRecord_t := { r1 with op2_r := toI32 (s1.mapTable (idx r1.op2)), op3_r := r1.op3 }
    { s1 with mem := upd s1.mem p r2 }
  else if r.iType = 'L' then
    let s1 := if r.op1 ≠ 0 then allocDst s p h t else s
    let r1 := s1.mem p
    let r2 : iRecord_t := { r1 with op3_r := toI32 (s1.mapTable (idx r1.op3)) }
    { s1 with mem := upd s1.mem p r2 }
  else if r.iType = 'S' then
    let r1 : iRecord_t :=
      { r with op1_r := toI32 (s.mapTable (idx r.op1)), op2_r := r.op2,
               op3_r := toI32 (s.mapTable (idx r.op3)) }
    { s with mem := upd s.mem p r1 }
  else s

/-- One iteration of the `for` loop of `rename`. -/
def renameBody (cycle : Nat) (i : Nat) (l : RenameLoop) : RenameLoop :=
  let s := l.st
  let pipe0 := upd s.thePipelineState i
    { s.thePipelineState i with Di := (s.thePipelineState i).R }
  let s0 : St := { s with thePipelineState := pipe0 }
  match (s0.thePipelineState i).R with
  | none => { st := s0, renameStall := l.renameStall }
  | some p =>
    let s1 : St := { s0 with mem := upd s0.mem p ({ s0.mem p with R := cycle }) }
    match s1.freeList with
    | h :: t => { st := renameSwitch s1 p h t, renameStall := l.renameStall }
    | [] => { st := s1, renameStall := 1 }

/-- The function `rename`: the new state and the returned stall flag. -/
def rename (s : St) (cycle : Nat) : St × Nat :=
  let l := forLoop s.ISSUE_WIDTH (renameBody cycle) { st := s, renameStall := 0 }
  (l.st, l.renameStall)

/-! ## Decode -/

/-- One iteration of the `for` loop of `decode`. -/
def decodeBody (cycle : Nat) (i : Nat) (s : St) : St :=
  match (s.thePipelineState i).Dc with
  | some p =>
    let mem1 := upd s.mem p { s.mem p with Dc := cycle }
    let pipe1 := upd s.thePipelineState i { s.thePipelineState i with R := some p }
    let decodedInstruction := s.memNext
    let mem2 := upd mem1 decodedInstruction (mem1 p)
    { s with
        mem := mem2
        memNext := s.memNext + 1
        thePipelineState := upd pipe1 i { pipe1 i with Dc := some decodedInstruction } }
  | none => s

/-- The function `decode`: the new state and the returned value (always 0). -/
def decode (s : St) (cycle : Nat) (_stall : Nat) : St × Nat :=
  (forLoop s.ISSUE_WIDTH (decodeBody cycle) s, 0)

/-! ## Fetch -/

/-- The variables the loop of `fetch` changes. -/
structure FetchLoop where
  st : St
  fetchOffset : Nat

/-- One iteration of the inner `for` loop of `fetch` that sets the `F` latch
to `NOP`. -/
def clearF (k : Nat) (s : St) : St :=
  let pipe1 := upd s.thePipelineState k { s.thePipelineState k with F := none }
  { s with thePipelineState := pipe1 }

/-- One iteration of the `for` loop of `fetch`. -/
def fetchBody (cycle : Nat) (ICOUNT : Nat) (i : Nat) (l : FetchLoop) : Option FetchLoop :=
  let s := l.st
  let pipe0 := upd s.thePipelineState i
    { s.thePipelineState i with Dc := (s.thePipelineState i).F }
  let s0 : St := { s with thePipelineState := pipe0 }
  if l.fetchOffset < ICOUNT then
    match (s0.thePipelineState i).F with
    | none => none
    | some old =>
      let mem1 := upd s0.mem old { s0.mem old with F := cycle }
      let new := l.fetchOffset
      let pipe1 := upd s0.thePipelineState i { s0.thePipelineState i with F := some new }
      let mem2 := upd mem1 new { mem1 new with fetchIndex := l.fetchOffset }
      some { st := { s0 with mem := mem2, thePipelineState := pipe1 }
             fetchOffset := (l.fetchOffset + 1) % 4294967296 }
  else
    some { st := forLoop s0.ISSUE_WIDTH clearF s0, fetchOffset := l.fetchOffset }

/-- The function `fetch`: the new state and the new value of `*fetchOffset`. -/
def fetch (s : St) (cycle : Nat) (_stall : Nat) (ICOUNT : Nat) (fetchOffset : Nat) :
    Option (St × Nat) :=
  (forLoopM s.ISSUE_WIDTH (fetchBody cycle ICOUNT) { st := s, fetchOffset := fetchOffset }).map
    (fun l => (l.st, l.fetchOffset))

/-! ## The driver -/

/-- One line of the trace: kind and the three operand fields. -/
structure TraceLine where
  iType : Char
  op1 : Int
  op2 : Int
  op3 : Int
deriving DecidableEq, Repr

/-- The array `instructions` after `initInstructions` has read the trace. -/
def initMem (tr : List TraceLine) : Nat → iRecord_t :=
  fun k =>
    match tr[k]? with
    | some t => { zeroRecord with iType := t.iType, op1 := t.op1, op2 := t.op2, op3 := t.op3 }
    | none => zeroRecord

/-- The local variables of `main` together with the globals. -/
structure MainSt where
  st : St
  stall : Nat
  cycle : Nat
  completedInsts : Nat
  fetchOffset : Nat

/-- The machine initialisation of `main`, up to the start of the `while`
loop. -/
def initState (P W : Nat) (tr : List TraceLine) : MainSt :=
  { st :=
      { ISSUE_WIDTH := W
        PREG_COUNT := P
        mem := initMem tr
        memNext := 256
        thePipelineState := fun i => if i < W then { nopSlot with F := some i } else nopSlot
        mapTable := fun i => if i < AREG_COUNT then i else 0
        readyTable := fun i => decide (i < P)
        freeList := List.range' AREG_COUNT (P - AREG_COUNT)
        robMem := fun _ => { instr := 0, ready := false, committed := false }
        robNext := 0
        reorderBuff := []
        issueQueue := []
        iqAge := 0
        wBQueue := []
        commitQueue := [] }
    stall := 0
    cycle := 0
    completedInsts := 0
    fetchOffset := W }

/-- The body of the `while` loop of `main` up to `++cycle`: one tick. -/
def tick (ICOUNT : Nat) (m : MainSt) : Option MainSt :=
  let s0 : St := { m.st with readyTable := upd m.st.readyTable 0 true }
  let c := commit s0 m.completedInsts m.cycle
  let s2 := writeback c.1 m.cycle
  let s3 := issue s2 m.cycle
  (dispatch s3 m.cycle).bind fun s4 =>
    let r := rename s4 m.cycle
    let d := decode r.1 m.cycle r.2
    (fetch d.1 m.cycle d.2 ICOUNT m.fetchOffset).map fun f =>
      { st := f.1, stall := d.2, cycle := (m.cycle + 1) % 4294967296,
        completedInsts := c.2, fetchOffset := f.2 }

/-- The `while` loop of `main`; `fuel` bounds the number of iterations. The
result is `none` on undefined behaviour or when the fuel runs out. -/
def mainLoop (ICOUNT : Nat) : Nat → MainSt → Option MainSt
  | 0, _ => none
  | fuel + 1, m =>
    if m.completedInsts < ICOUNT then
      (tick ICOUNT m).bind fun m1 =>
        if m1.cycle = 15 then some m1 else mainLoop ICOUNT fuel m1
    else some m

/-- The function `main` from initialisation to the end of the `while` loop. -/
def main (P W : Nat) (tr : List TraceLine) : Option MainSt :=
  mainLoop tr.length 16 (initState P W tr)

/-- The state after `n` ticks of the machine, without the exit tests of the
`while` loop. -/
def ticks (ICOUNT : Nat) : Nat → MainSt → Option MainSt
  | 0, m => some m
  | n + 1, m => (ticks ICOUNT n m).bind (tick ICOUNT)

/-- The `fetchIndex` values of the instructions that the call of `commit` in
the tick started from `m` retires, in retirement order. -/
def tickRetired (m : MainSt) : List Nat :=
  let s0 : St := { m.st with readyTable := upd m.st.readyTable 0 true }
  (commitLoop s0 m.completedInsts m.cycle).retired.map (fun p => (s0.mem p).fetchIndex)

/-- The `fetchIndex` values of all instructions retired during the `while`
loop of `main`, in retirement order; it follows the loop of `mainLoop`. -/
def loopRetired (ICOUNT : Nat) : Nat → MainSt → List Nat
  | 0, _ => []
  | fuel + 1, m =>
    if m.completedInsts < ICOUNT then
      tickRetired m ++
        (match tick ICOUNT m with
         | none => []
         | some m1 => if m1.cycle = 15 then [] else loopRetired ICOUNT fuel m1)
    else []

/-- The `fetchIndex` values of all instructions retired by a run of `main`. -/
def mainRetired (P W : Nat) (tr : List TraceLine) : List Nat :=
  loopRetired tr.length 16 (initState P W tr)

/-- The seven stage cycles that `printRecords` prints for instruction `i`. -/
def stageCycles (m : MainSt) (i : Nat) : List Nat :=
  let r := m.st.mem i
  [r.F, r.Dc, r.R, r.Di, r.IS, r.W, r.C]

/-! ## Notions used in the statements -/

/-- The state at the tick boundary after `n` ticks of a run of `main` (the
initial state when the run has met undefined behaviour before). -/
def stateAfter (P W : Nat) (tr : List TraceLine) (n : Nat) : MainSt :=
  match ticks tr.length n (initState P W tr) with
  | some m => m
  | none => initState P W tr

/-- The ROB entries at the head of the ROB whose `ready` flag is set. -/
def readyHead (s : St) : List Nat :=
  s.reorderBuff.takeWhile (fun r => (s.robMem r).ready)

/-- The test of `issue` on an issue-queue entry: both sources ready. -/
def iqReady (e : iqEntry_t) : Bool := e.src1_ready && e.src2_ready

/-- The first `n` ready entries of an issue queue, in queue order. -/
def selectList : Nat → List iqEntry_t → List iqEntry_t
  | 0, _ => []
  | _ + 1, [] => []
  | n + 1, e :: l => if iqReady e then e :: selectList n l else selectList (n + 1) l

/-- An issue queue without its first `n` ready entries. -/
def restList : Nat → List iqEntry_t → List iqEntry_t
  | 0, l => l
  | _ + 1, [] => []
  | n + 1, e :: l => if iqReady e then restList n l else e :: restList (n + 1) l

/-- The record memory after `IS = cycle` has been written to the
instructions of the entries `sel`. -/
def stampIS (cycle : Nat) (sel : List iqEntry_t) (mem : Nat → iRecord_t) : Nat → iRecord_t :=
  sel.foldl (fun m e => upd m e.instr { m e.instr with IS := cycle }) mem

/-- The wakeup tags that `issue` records for the selected entries `sel`. -/
def tagsOf (mem : Nat → iRecord_t) (sel : List iqEntry_t) : List Int :=
  sel.flatMap (fun e => [(mem e.instr).op1_r, (mem e.instr).op2_r])

/-- The effect of one wakeup tag on one issue-queue entry. -/
def wake1 (mem : Nat → iRecord_t) (tag : Int) (e : iqEntry_t) : iqEntry_t :=
  let e1 : iqEntry_t := if (mem e.instr).op2_r = tag then { e with src1_ready := true } else e
  if (mem e1.instr).op3_r = tag then { e1 with src2_ready := true } else e1

/-- The effect of a list of wakeup tags on one issue-queue entry. -/
def wakeAll (mem : Nat → iRecord_t) (tags : List Int) (e : iqEntry_t) : iqEntry_t :=
  tags.foldl (fun e tag => wake1 mem tag e) e

/-- The entries that one call of `issue` selects. -/
def issueSelected (s : St) : List iqEntry_t := selectList s.ISSUE_WIDTH s.issueQueue

/-- The outcome of the scan of `issue` over the part `suf` of the issue queue
that follows the part `pre` already passed over. -/
def scanResult (cycle : Nat) (l : IssueLoop) (pre suf : List iqEntry_t) : IssueLoop :=
  { st := { l.st with
              mem := stampIS cycle (selectList (l.st.ISSUE_WIDTH - l.IQpull) suf) l.st.mem
              wBQueue := l.st.wBQueue ++
                (selectList (l.st.ISSUE_WIDTH - l.IQpull) suf).map (fun e => e.instr)
              issueQueue := pre ++ restList (l.st.ISSUE_WIDTH - l.IQpull) suf }
    IQpull := l.IQpull + (selectList (l.st.ISSUE_WIDTH - l.IQpull) suf).length
    wakeupQ := l.wakeupQ ++ tagsOf l.st.mem (selectList (l.st.ISSUE_WIDTH - l.IQpull) suf) }

/-- The state in which the tick started from `m` calls `issue`: after
`commit` and `writeback`. -/
def beforeIssue (m : MainSt) : St :=
  let s0 : St := { m.st with readyTable := upd m.st.readyTable 0 true }
  writeback (commit s0 m.completedInsts m.cycle).1 m.cycle

/-- The instructions that the call of `issue` in the tick started from `m`
appends to the writeback queue, in order. -/
def tickIssued (m : MainSt) : List Nat :=
  (issueSelect (beforeIssue m) m.cycle).st.wBQueue.drop (beforeIssue m).wBQueue.length

/-- The trace `R,1,2,3`, `R,4,1,5`, `R,6,4,7`, `S,8,33,2`, `S,8,32,2`: a chain
of two dependent instructions followed by two stores whose immediate
operands are 33 and 32. -/
def chainTrace : List TraceLine :=
  [⟨'R', 1, 2, 3⟩, ⟨'R', 4, 1, 5⟩, ⟨'R', 6, 4, 7⟩, ⟨'S', 8, 33, 2⟩, ⟨'S', 8, 32, 2⟩]

/-- The trace `R,1,2,3`, `S,1,0,2`, `R,4,5,6`, `R,7,8,9`, `R,10,11,12`: a
store that reads the register the instruction before it writes. -/
def storeTrace : List TraceLine :=
  [⟨'R', 1, 2, 3⟩, ⟨'S', 1, 0, 2⟩, ⟨'R', 4, 5, 6⟩, ⟨'R', 7, 8, 9⟩, ⟨'R', 10, 11, 12⟩]

/-- What the loop of `rename` keeps true while every occupied slot of the `R`
latch holds a store: the free list, the map table, the `R` latch and the
trace fields of every record are as in the starting state `s`, and the
slots already processed have their stores renamed. -/
structure StoreInv (s : St) (n : Nat) (l : RenameLoop) : Prop where
  free : l.st.freeList = s.freeList
  map : l.st.mapTable = s.mapTable
  width : l.st.ISSUE_WIDTH = s.ISSUE_WIDTH
  latch : ∀ j, (l.st.thePipelineState j).R = (s.thePipelineState j).R
  kind : ∀ q, (l.st.mem q).iType = (s.mem q).iType
  op1 : ∀ q, (l.st.mem q).op1 = (s.mem q).op1
  op2 : ∀ q, (l.st.mem q).op2 = (s.mem q).op2
  op3 : ∀ q, (l.st.mem q).op3 = (s.mem q).op3
  done : s.freeList ≠ [] → ∀ j < n, ∀ p, (s.thePipelineState j).R = some p →
    (l.st.mem p).op1_r = toI32 (s.mapTable (idx (s.mem p).op1)) ∧
      (l.st.mem p).op2_r = (s.mem p).op2 ∧
      (l.st.mem p).op3_r = toI32 (s.mapTable (idx (s.mem p).op3))

/-- The state in which the tick started from `m` calls `rename`: after
`commit`, `writeback`, `issue` and `dispatch` (the state before the tick when
`dispatch` meets undefined behaviour). -/
def beforeRename (m : MainSt) : St :=
  match dispatch (issue (beforeIssue m) m.cycle) m.cycle with
  | some s => s
  | none => m.st

/-- The state in which the tick started from `m` calls `commit`: the state
at the tick boundary after `readyTable[0] = true`. -/
def beforeCommit (m : MainSt) : St :=
  { m.st with readyTable := upd m.st.readyTable 0 true }

/-- The state in which the tick started from `m` calls `writeback`. -/
def beforeWriteback (m : MainSt) : St :=
  (commit (beforeCommit m) m.completedInsts m.cycle).1

/-- The state in which the tick started from `m` calls `dispatch`. -/
def beforeDispatch (m : MainSt) : St :=
  issue (beforeIssue m) m.cycle

/-- The state in which the tick started from `m` calls `decode`. -/
def beforeDecode (m : MainSt) : St :=
  (rename (beforeRename m) m.cycle).1

/-- The state in which the tick started from `m` calls `fetch`. -/
def beforeFetch (m : MainSt) : St :=
  (decode (beforeDecode m) m.cycle (rename (beforeRename m) m.cycle).2).1

/-- The `F`, `Dc`, `R` and `Di` latches of slot `i`. -/
def latches (s : St) (i : Nat) : List (Option Nat) :=
  [(s.thePipelineState i).F, (s.thePipelineState i).Dc, (s.thePipelineState i).R,
    (s.thePipelineState i).Di]

/-- The trace `R,1,2,3`, `R,4,5,6`, `R,7,8,9`, `R,10,11,12`, `R,13,14,15`:
five independent instructions. -/
def fiveTrace : List TraceLine :=
  [⟨'R', 1, 2, 3⟩, ⟨'R', 4, 5, 6⟩, ⟨'R', 7, 8, 9⟩, ⟨'R', 10, 11, 12⟩, ⟨'R', 13, 14, 15⟩]

/-- The trace `R,2,3,4`, `R,1,2,5`, `S,1,0,6`, `R,7,8,9`, `R,10,11,12`: the
second instruction reads what the first writes, and the store reads what the
second writes. -/
def earlyStoreTrace : List TraceLine :=
  [⟨'R', 2, 3, 4⟩, ⟨'R', 1, 2, 5⟩, ⟨'S', 1, 0, 6⟩, ⟨'R', 7, 8, 9⟩, ⟨'R', 10, 11, 12⟩]

/-- The ROB read from the head: for each entry the instruction it refers to
and its `ready` flag. -/
def robView (s : St) : List (Nat × Bool) :=
  s.reorderBuff.map (fun r => ((s.robMem r).instr, (s.robMem r).ready))

/-- The trace `R,1,2,3`, `R,4,5,6`, `R,7,8,9`: with 33 physical registers the
free list is empty after the first of them is renamed. -/
def stallTrace : List TraceLine :=
  [⟨'R', 1, 2, 3⟩, ⟨'R', 4, 5, 6⟩, ⟨'R', 7, 8, 9⟩]

/-- What the search loop of `writeback` leaves as it is. -/
structure MarkFrame (s s' : St) : Prop where
  mem : s'.mem = s.mem
  wbq : s'.wBQueue = s.wBQueue
  cq : s'.commitQueue = s.commitQueue
  rob : s'.reorderBuff = s.reorderBuff
  instr : ∀ q, (s'.robMem q).instr = (s.robMem q).instr
  mono : ∀ a, s.readyTable a = true → s'.readyTable a = true

/-- What holds after `n` iterations of the outer loop of `writeback` started
in state `s`: the first `min n |WBQ|` instructions have left the writeback
queue in order and carry `W = cycle`, and the ready-table entry of each of
them that has a ROB entry with the same `op1_r` is true. -/
structure DrainInv (s : St) (cycle n : Nat) (s' : St) : Prop where
  wbq : s'.wBQueue = s.wBQueue.drop (min n s.wBQueue.length)
  cq : s'.commitQueue = s.commitQueue ++ s.wBQueue.take (min n s.wBQueue.length)
  rob : s'.reorderBuff = s.reorderBuff
  instr : ∀ q, (s'.robMem q).instr = (s.robMem q).instr
  mem : ∀ q, s'.mem q = s.mem q ∨ s'.mem q = { s.mem q with W := cycle }
  stamp : ∀ p ∈ s.wBQueue.take (min n s.wBQueue.length), (s'.mem p).W = cycle
  ready : ∀ p ∈ s.wBQueue.take (min n s.wBQueue.length),
    (∃ r ∈ s.reorderBuff, (s.mem (s.robMem r).instr).op1_r = (s.mem p).op1_r) →
      s'.readyTable (idx (s.mem p).op1_r) = true

/-- The trace of ten independent instructions `R,1,2,3`, `R,4,5,6`, ...,
`R,28,29,30`. -/
def tenTrace : List TraceLine :=
  [⟨'R', 1, 2, 3⟩, ⟨'R', 4, 5, 6⟩, ⟨'R', 7, 8, 9⟩, ⟨'R', 10, 11, 12⟩, ⟨'R', 13, 14, 15⟩,
    ⟨'R', 16, 17, 18⟩, ⟨'R', 19, 20, 21⟩, ⟨'R', 22, 23, 24⟩, ⟨'R', 25, 26, 27⟩,
    ⟨'R', 28, 29, 30⟩]

/-- The trace `R,1,2,3`, `X,4,5,6`, `R,7,8,9`, whose second line has a kind
that is none of R, I, L, S. -/
def unknownTrace : List TraceLine :=
  [⟨'R', 1, 2, 3⟩, ⟨'X', 4, 5, 6⟩, ⟨'R', 7, 8, 9⟩]

/-- The issue queue of `s`, read from front to back, has strictly increasing
`age` values, all smaller than the age counter `iqAge`. -/
def AgeOrdered (s : St) : Prop :=
  (s.issueQueue.map (fun e => e.age)).Pairwise (fun a b => a < b) ∧
    ∀ e ∈ s.issueQueue, e.age < s.iqAge

instance ageOrderedDecidable (s : St) : Decidable (AgeOrdered s) := by
  unfold AgeOrdered
  infer_instance

/-- What the stages other than `issue` and `dispatch` keep of the state: the
issue width, the issue queue and the age counter. -/
structure IqSame (s s' : St) : Prop where
  width : s'.ISSUE_WIDTH = s.ISSUE_WIDTH
  queue : s'.issueQueue = s.issueQueue
  age : s'.iqAge = s.iqAge

/-- The invariant of the age counter over a run of width `W`: the issue queue
is age-ordered and the counter has not passed the bound `B`. -/
structure AgeInv (W B : Nat) (s : St) : Prop where
  ordered : AgeOrdered s
  bound : s.iqAge ≤ B
  width : s.ISSUE_WIDTH = W


/-! ## Basic lemmas -/

@[simp] theorem upd_same {α : Type} (f : Nat → α) (k : Nat) (v : α) : upd f k v k = v := by
  simp [upd]

theorem upd_other {α : Type} (f : Nat → α) (k q : Nat) (v : α) (h : q ≠ k) :
    upd f k v q = f q := by
  simp [upd, h]

theorem forLoop_succ {α : Type} (n : Nat) (body : Nat → α → α) (a : α) :
    forLoop (n + 1) body a = body n (forLoop n body a) := rfl

/-- A loop whose body does not look at the counter can be unrolled at the
front. -/
theorem forLoop_front {α : Type} (f : α → α) (body : Nat → α → α) (hb : ∀ i, body i = f)
    (n : Nat) (a : α) : forLoop (n + 1) body a = forLoop n body (f a) := by
  induction n with
  | zero => simp [forLoop, hb]
  | succ n ih => rw [forLoop_succ, ih, forLoop_succ, hb, hb]

/-- A loop whose body leaves the state as it is does nothing. -/
theorem forLoop_fixed {α : Type} (body : Nat → α → α) (a : α) (hb : ∀ i, body i a = a)
    (n : Nat) : forLoop n body a = a := by
  induction n with
  | zero => rfl
  | succ n ih => rw [forLoop_succ, ih, hb]

/-! ## Commit -/

@[simp] theorem retire_robMem (cycle : Nat) (l : CommitLoop) (r : Nat) :
    (retire cycle l r).st.robMem = l.st.robMem := rfl

@[simp] theorem retire_width (cycle : Nat) (l : CommitLoop) (r : Nat) :
    (retire cycle l r).st.ISSUE_WIDTH = l.st.ISSUE_WIDTH := rfl

@[simp] theorem retire_reorderBuff (cycle : Nat) (l : CommitLoop) (r : Nat) :
    (retire cycle l r).st.reorderBuff = l.st.reorderBuff.tail := rfl

@[simp] theorem retire_commitPull (cycle : Nat) (l : CommitLoop) (r : Nat) :
    (retire cycle l r).commitPull = l.commitPull + 1 := rfl

/-- The loop of `commit` retires the first `min n k` entries of the ROB, where
`k` is the length of the ready head, as long as the slots suffice. -/
theorem commit_loop_eq (cycle : Nat) (n : Nat) (l : CommitLoop)
    (hw : l.commitPull + n ≤ l.st.ISSUE_WIDTH) :
    forLoop n (commitBody cycle) l =
      (l.st.reorderBuff.take (min n (readyHead l.st).length)).foldl (retire cycle) l := by
  induction n generalizing l with
  | zero => simp [forLoop]
  | succ n ih =>
    rw [forLoop_front (commitBody cycle 0) (commitBody cycle) (fun _ => rfl)]
    cases hrob : l.st.reorderBuff with
    | nil =>
      have hb : commitBody cycle 0 l = l := by simp [commitBody, hrob]
      rw [hb, ih l (by omega)]
      simp [hrob]
    | cons r rest =>
      by_cases hr : (l.st.robMem r).ready = true
      · have hb : commitBody cycle 0 l = retire cycle l r := by
          have : l.commitPull < l.st.ISSUE_WIDTH := by omega
          simp [commitBody, hrob, hr, this]
        rw [hb, ih (retire cycle l r) (by simp; omega)]
        simp [readyHead, hrob, hr, List.takeWhile_cons, Nat.succ_min_succ]
      · have hb : commitBody cycle 0 l = l := by simp [commitBody, hrob, hr]
        rw [hb]
        have hfix : forLoop n (commitBody cycle) l = l :=
          forLoop_fixed _ _ (fun _ => hb) n
        rw [hfix]
        simp [readyHead, hrob, hr, List.takeWhile_cons]


theorem retireAll_robMem (cycle : Nat) (xs : List Nat) (l : CommitLoop) :
    (xs.foldl (retire cycle) l).st.robMem = l.st.robMem := by
  induction xs generalizing l with
  | nil => rfl
  | cons x xs ih => simp [List.foldl_cons, ih]

theorem retireAll_reorderBuff (cycle : Nat) (xs : List Nat) (l : CommitLoop) :
    (xs.foldl (retire cycle) l).st.reorderBuff = l.st.reorderBuff.drop xs.length := by
  induction xs generalizing l with
  | nil => simp
  | cons x xs ih => simp [List.foldl_cons, ih, List.drop_tail]

theorem retireAll_retired (cycle : Nat) (xs : List Nat) (l : CommitLoop) :
    (xs.foldl (retire cycle) l).retired =
      l.retired ++ xs.map (fun r => (l.st.robMem r).instr) := by
  induction xs generalizing l with
  | nil => simp
  | cons x xs ih =>
    rw [List.foldl_cons, ih]
    simp [retire]

theorem retireAll_committedInsts (cycle : Nat) (xs : List Nat) (l : CommitLoop)
    (hc : l.committedInsts < 4294967296) :
    (xs.foldl (retire cycle) l).committedInsts =
      (l.committedInsts + xs.length) % 4294967296 := by
  induction xs generalizing l with
  | nil => simp [Nat.mod_eq_of_lt hc]
  | cons x xs ih =>
    rw [List.foldl_cons, ih _ (by simp [retire]; omega)]
    simp only [retire, List.length_cons]
    omega

/-- Retirement changes nothing of a record but its `C` field, and a record
stamped with this cycle stays so. -/
theorem retireAll_mem (cycle : Nat) (xs : List Nat) (l : CommitLoop) (q : Nat) :
    (xs.foldl (retire cycle) l).st.mem q = l.st.mem q ∨
      (xs.foldl (retire cycle) l).st.mem q = { l.st.mem q with C := cycle } := by
  induction xs generalizing l with
  | nil => simp
  | cons x xs ih =>
    rw [List.foldl_cons]
    rcases ih (retire cycle l x) with h | h
    · rw [h]
      by_cases hq : q = (l.st.robMem x).instr
      · right; subst hq; simp [retire]
      · left; simp [retire, upd_other _ _ _ _ hq]
    · rw [h]
      right
      by_cases hq : q = (l.st.robMem x).instr
      · subst hq; simp [retire]
      · simp [retire, upd_other _ _ _ _ hq]

theorem retireAll_stamp (cycle : Nat) (xs : List Nat) (l : CommitLoop) (r : Nat) (hr : r ∈ xs) :
    ((xs.foldl (retire cycle) l).st.mem (l.st.robMem r).instr).C = cycle := by
  induction xs generalizing l with
  | nil => simp at hr
  | cons x xs ih =>
    rw [List.foldl_cons]
    rcases List.mem_cons.mp hr with h | h
    · subst h
      rcases retireAll_mem cycle xs (retire cycle l r) (l.st.robMem r).instr with h1 | h1
      · rw [h1]; simp [retire]
      · rw [h1]
    · have := ih (retire cycle l x) h
      simpa using this


/-! ## C1, C2 -/

/-- C1 (evaluation of the code at the failing input): on the machine with 34
physical registers and issue width 2, the run over the trace `R,1,2,3`,
`R,4,5,6` retires two instructions and both have `fetchIndex` 0; the
sequence of retired `fetchIndex` values is `0, 0`, not `0, 1`. -/
theorem C1_commit_order_scenario :
    mainRetired 34 2 [⟨'R', 1, 2, 3⟩, ⟨'R', 4, 5, 6⟩] = [0, 0] := by
  decide

theorem take_min_takeWhile {α : Type} (p : α → Bool) (l : List α) (n : Nat) :
    l.take (min n (l.takeWhile p).length) = (l.takeWhile p).take n := by
  induction l generalizing n with
  | nil => simp
  | cons x l ih =>
    cases n with
    | zero => simp
    | succ n =>
      by_cases hx : p x = true
      · simp [List.takeWhile_cons, hx, Nat.succ_min_succ, ih]
      · simp [List.takeWhile_cons, hx]

/-- C2: one call of `commit` removes from the ROB exactly its first `k`
entries, where `k` is the length of the longest all-ready head of the ROB
truncated to the issue width; every removed entry had its `ready` flag set,
the instruction of each is stamped with `C = cycle`, the instructions are
retired in ROB order, the returned count is the old count plus `k` (as an
`unsigned int`), and the rest of the ROB keeps its order and its flags. -/
theorem C2_commit_ready_head (s : St) (c cycle : Nat) (hc : c < 4294967296) :
    (commit s c cycle).1.reorderBuff =
        s.reorderBuff.drop (min s.ISSUE_WIDTH (readyHead s).length) ∧
      s.reorderBuff.take (min s.ISSUE_WIDTH (readyHead s).length) =
        (readyHead s).take s.ISSUE_WIDTH ∧
      (commitLoop s c cycle).retired =
        (s.reorderBuff.take (min s.ISSUE_WIDTH (readyHead s).length)).map
          (fun r => (s.robMem r).instr) ∧
      (∀ r ∈ s.reorderBuff.take (min s.ISSUE_WIDTH (readyHead s).length),
        (s.robMem r).ready = true ∧
          ((commit s c cycle).1.mem (s.robMem r).instr).C = cycle) ∧
      (commit s c cycle).2 = (c + min s.ISSUE_WIDTH (readyHead s).length) % 4294967296 ∧
      (commit s c cycle).1.robMem = s.robMem := by
  have heq : commitLoop s c cycle =
      (s.reorderBuff.take (min s.ISSUE_WIDTH (readyHead s).length)).foldl (retire cycle)
        { st := s, committedInsts := c, commitPull := 0, retired := [] } := by
    unfold commitLoop
    rw [commit_loop_eq cycle s.ISSUE_WIDTH _ (by simp)]
  have htake : s.reorderBuff.take (min s.ISSUE_WIDTH (readyHead s).length) =
      (readyHead s).take s.ISSUE_WIDTH := by
    exact take_min_takeWhile _ _ _
  have hlen : (readyHead s).length ≤ s.reorderBuff.length := (List.takeWhile_sublist _).length_le
  refine ⟨?_, htake, ?_, ?_, ?_, ?_⟩
  · simp only [commit, heq, retireAll_reorderBuff]
    simp [Nat.min_eq_left hlen]
  · rw [heq, retireAll_retired]
    simp
  · intro r hr
    constructor
    · rw [htake] at hr
      have h1 : r ∈ readyHead s := List.mem_of_mem_take hr
      exact List.mem_takeWhile_imp (p := fun r => (s.robMem r).ready) h1
    · simp only [commit, heq]
      exact retireAll_stamp cycle _ _ r hr
  · simp only [commit, heq]
    rw [retireAll_committedInsts cycle _ _ hc]
    simp [Nat.min_eq_left hlen]
  · simp only [commit, heq, retireAll_robMem]

/-- C2 at a concrete state: the state of the run over `R,1,2,3` (34 registers,
width 1) after six ticks, where the ROB head is ready and one entry is
removed. -/
theorem C2_commit_ready_head_witness :
    (0 : Nat) < 4294967296 ∧
      min (stateAfter 34 1 [⟨'R', 1, 2, 3⟩] 6).st.ISSUE_WIDTH
        (readyHead (stateAfter 34 1 [⟨'R', 1, 2, 3⟩] 6).st).length = 1 ∧
      (commit (stateAfter 34 1 [⟨'R', 1, 2, 3⟩] 6).st 0 6).2 =
        (0 + min (stateAfter 34 1 [⟨'R', 1, 2, 3⟩] 6).st.ISSUE_WIDTH
          (readyHead (stateAfter 34 1 [⟨'R', 1, 2, 3⟩] 6).st).length) % 4294967296 :=
  ⟨by decide, by decide,
    (C2_commit_ready_head (stateAfter 34 1 [⟨'R', 1, 2, 3⟩] 6).st 0 6 (by decide)).2.2.2.2.1⟩

/-! ## Issue: selection -/

@[simp] theorem selectList_nil (n : Nat) : selectList n [] = [] := by
  cases n <;> rfl

@[simp] theorem restList_nil (n : Nat) : restList n [] = [] := by
  cases n <;> rfl

@[simp] theorem selectList_zero (l : List iqEntry_t) : selectList 0 l = [] := by
  cases l <;> rfl

@[simp] theorem restList_zero (l : List iqEntry_t) : restList 0 l = l := by
  cases l <;> rfl

theorem selectList_cons_ready (n : Nat) (e : iqEntry_t) (l : List iqEntry_t)
    (h : iqReady e = true) : selectList (n + 1) (e :: l) = e :: selectList n l := by
  simp [selectList, h]

theorem selectList_cons_wait (n : Nat) (e : iqEntry_t) (l : List iqEntry_t)
    (h : iqReady e = false) : selectList (n + 1) (e :: l) = selectList (n + 1) l := by
  simp [selectList, h]

theorem restList_cons_ready (n : Nat) (e : iqEntry_t) (l : List iqEntry_t)
    (h : iqReady e = true) : restList (n + 1) (e :: l) = restList n l := by
  simp [restList, h]

theorem restList_cons_wait (n : Nat) (e : iqEntry_t) (l : List iqEntry_t)
    (h : iqReady e = false) : restList (n + 1) (e :: l) = e :: restList (n + 1) l := by
  simp [restList, h]

/-- The selected entries are the first `n` ready ones. -/
theorem selectList_eq_take_filter (n : Nat) (l : List iqEntry_t) :
    selectList n l = (l.filter iqReady).take n := by
  induction l generalizing n with
  | nil => simp
  | cons e l ih =>
    cases n with
    | zero => simp
    | succ n =>
      cases h : iqReady e
      · rw [selectList_cons_wait n e l h, ih]; simp [List.filter_cons, h]
      · rw [selectList_cons_ready n e l h, ih]; simp [List.filter_cons, h]

theorem restList_sublist (n : Nat) (l : List iqEntry_t) : (restList n l).Sublist l := by
  induction l generalizing n with
  | nil => simp
  | cons e l ih =>
    cases n with
    | zero => simp
    | succ n =>
      cases h : iqReady e
      · rw [restList_cons_wait n e l h]; exact (ih (n + 1)).cons₂ e
      · rw [restList_cons_ready n e l h]; exact (ih n).cons e

theorem select_rest_perm (n : Nat) (l : List iqEntry_t) :
    (selectList n l ++ restList n l).Perm l := by
  induction l generalizing n with
  | nil => simp
  | cons e l ih =>
    cases n with
    | zero => simp
    | succ n =>
      cases h : iqReady e
      · rw [restList_cons_wait n e l h, selectList_cons_wait n e l h]
        exact List.perm_middle.trans ((ih (n + 1)).cons e)
      · rw [restList_cons_ready n e l h, selectList_cons_ready n e l h]
        exact (ih n).cons e

/-- In a queue in ascending age order every selected entry is older than
every ready entry that stays behind. -/
theorem selectList_oldest (n : Nat) (l : List iqEntry_t)
    (hs : l.Pairwise (fun a b => a.age < b.age)) :
    ∀ e ∈ selectList n l, ∀ e' ∈ restList n l, iqReady e' = true → e.age < e'.age := by
  induction l generalizing n with
  | nil => simp
  | cons x l ih =>
    cases n with
    | zero => simp
    | succ n =>
      rw [List.pairwise_cons] at hs
      cases h : iqReady x
      · rw [restList_cons_wait n x l h, selectList_cons_wait n x l h]
        intro e he e' he' hr
        rcases List.mem_cons.mp he' with h1 | h1
        · subst h1; rw [h] at hr; exact absurd hr (by simp)
        · exact ih (n + 1) hs.2 e he e' h1 hr
      · rw [restList_cons_ready n x l h, selectList_cons_ready n x l h]
        intro e he e' he' hr
        rcases List.mem_cons.mp he with h1 | h1
        · subst h1; exact hs.1 e' ((restList_sublist n l).subset he')
        · exact ih n hs.2 e h1 e' he' hr

/-- Once the selection is done a second scan selects nothing. -/
theorem selectList_restList (n : Nat) (l : List iqEntry_t) :
    selectList (n - (selectList n l).length) (restList n l) = [] := by
  induction l generalizing n with
  | nil => simp
  | cons e l ih =>
    cases n with
    | zero => simp
    | succ n =>
      cases h : iqReady e
      · rw [restList_cons_wait n e l h, selectList_cons_wait n e l h]
        cases hk : n + 1 - (selectList (n + 1) l).length with
        | zero => rfl
        | succ k =>
          rw [selectList_cons_wait k e _ h, ← hk]
          exact ih (n + 1)
      · rw [restList_cons_ready n e l h, selectList_cons_ready n e l h]
        simpa using ih n

theorem restList_restList (n : Nat) (l : List iqEntry_t) :
    restList (n - (selectList n l).length) (restList n l) = restList n l := by
  induction l generalizing n with
  | nil => simp
  | cons e l ih =>
    cases n with
    | zero => simp
    | succ n =>
      cases h : iqReady e
      · rw [restList_cons_wait n e l h, selectList_cons_wait n e l h]
        cases hk : n + 1 - (selectList (n + 1) l).length with
        | zero => rfl
        | succ k =>
          rw [restList_cons_wait k e _ h, ← hk, ih (n + 1)]
      · rw [restList_cons_ready n e l h, selectList_cons_ready n e l h]
        simpa using ih n

theorem tagsOf_stamp (cycle : Nat) (mem : Nat → iRecord_t) (p : Nat) (sel : List iqEntry_t) :
    tagsOf (upd mem p { mem p with IS := cycle }) sel = tagsOf mem sel := by
  unfold tagsOf
  congr 1
  funext e
  by_cases h : e.instr = p
  · simp [h]
  · simp [upd_other _ _ _ _ h]

theorem tagsOf_cons (mem : Nat → iRecord_t) (e : iqEntry_t) (sel : List iqEntry_t) :
    tagsOf mem (e :: sel) = [(mem e.instr).op1_r, (mem e.instr).op2_r] ++ tagsOf mem sel := by
  simp [tagsOf]

theorem stampIS_cons (cycle : Nat) (mem : Nat → iRecord_t) (e : iqEntry_t)
    (sel : List iqEntry_t) :
    stampIS cycle (e :: sel) mem =
      stampIS cycle sel (upd mem e.instr { mem e.instr with IS := cycle }) := rfl

theorem scanResult_nil (cycle : Nat) (l : IssueLoop) (pre : List iqEntry_t)
    (h : l.st.issueQueue = pre) : scanResult cycle l pre [] = l := by
  cases l with
  | mk st q w =>
    cases st
    simp_all [scanResult, stampIS, tagsOf]

theorem scanResult_full (cycle : Nat) (l : IssueLoop) (pre suf : List iqEntry_t)
    (h : l.st.issueQueue = pre ++ suf) (hw : ¬ l.IQpull < l.st.ISSUE_WIDTH) :
    scanResult cycle l pre suf = l := by
  have hz : l.st.ISSUE_WIDTH - l.IQpull = 0 := by omega
  cases l with
  | mk st q w =>
    cases st
    simp_all [scanResult, stampIS, tagsOf]

/-- The `while` loop of `issue` computes `scanResult`. -/
theorem issueScan_eq (cycle : Nat) (suf : List iqEntry_t) :
    ∀ (fuel : Nat) (pre : List iqEntry_t) (l : IssueLoop),
      l.st.issueQueue = pre ++ suf → suf.length ≤ fuel →
      issueScan cycle fuel pre.length l = scanResult cycle l pre suf := by
  induction suf with
  | nil =>
    intro fuel pre l h _
    rw [scanResult_nil cycle l pre (by simpa using h)]
    cases fuel with
    | zero => rfl
    | succ fuel =>
      have hn : l.st.issueQueue[pre.length]? = none := by simp [h]
      simp [issueScan, hn]
  | cons e suf ih =>
    intro fuel pre l h hf
    cases fuel with
    | zero => simp at hf
    | succ fuel =>
      have he : l.st.issueQueue[pre.length]? = some e := by
        rw [h, List.getElem?_append_right (le_refl _)]; simp
      by_cases hw : l.IQpull < l.st.ISSUE_WIDTH
      · obtain ⟨b, hb⟩ : ∃ b, l.st.ISSUE_WIDTH - l.IQpull = b + 1 := ⟨_, (Nat.succ_pred_eq_of_pos (by omega)).symm⟩
        cases hr : iqReady e
        · have hr' : ¬ (e.src1_ready = true ∧ e.src2_ready = true) := by
            simpa [iqReady] using hr
          have hstep : issueScan cycle (fuel + 1) pre.length l =
              issueScan cycle fuel (pre ++ [e]).length l := by
            simp [issueScan, hw, he, hr']
          rw [hstep, ih fuel (pre ++ [e]) l (by simp [h]) (by simpa using hf)]
          simp [scanResult, hb, selectList_cons_wait _ e suf hr, restList_cons_wait _ e suf hr]
        · have hr' : e.src1_ready = true ∧ e.src2_ready = true := by
            simpa [iqReady] using hr
          have hstep : issueScan cycle (fuel + 1) pre.length l =
              issueScan cycle fuel pre.length
                { st := { l.st with
                            mem := upd l.st.mem e.instr { l.st.mem e.instr with IS := cycle }
                            wBQueue := l.st.wBQueue ++ [e.instr]
                            issueQueue := l.st.issueQueue.eraseIdx pre.length }
                  IQpull := l.IQpull + 1
                  wakeupQ := l.wakeupQ ++
                    [(l.st.mem e.instr).op1_r, (l.st.mem e.instr).op2_r] } := by
            simp [issueScan, hw, he, hr']
          rw [hstep, ih fuel pre _ (by simp [h, List.eraseIdx_append_of_length_le])
            (by simpa using hf)]
          have hb' : l.st.ISSUE_WIDTH - (l.IQpull + 1) = b := by omega
          simp only [scanResult, hb, hb', selectList_cons_ready _ e suf hr,
            restList_cons_ready _ e suf hr, stampIS_cons, tagsOf_stamp, tagsOf_cons,
            List.map_cons, List.length_cons, List.append_assoc, List.singleton_append,
            List.cons_append, List.nil_append, Nat.add_assoc, Nat.add_comm 1]
      · rw [scanResult_full cycle l pre (e :: suf) h hw]
        simp [issueScan, hw]

theorem issueBody_eq (cycle i : Nat) (l : IssueLoop) :
    issueBody cycle i l = scanResult cycle l [] l.st.issueQueue := by
  unfold issueBody
  by_cases h : l.st.issueQueue.isEmpty = false
  · rw [if_pos h]
    exact issueScan_eq cycle l.st.issueQueue l.st.issueQueue.length [] l (by simp) (le_refl _)
  · rw [if_neg h]
    have h0 : l.st.issueQueue = [] := by simpa using h
    rw [h0]
    exact (scanResult_nil cycle l [] h0).symm

/-- A scan that selects nothing leaves the loop variables as they are. -/
theorem scanResult_idle (cycle : Nat) (l : IssueLoop)
    (h1 : selectList (l.st.ISSUE_WIDTH - l.IQpull) l.st.issueQueue = [])
    (h2 : restList (l.st.ISSUE_WIDTH - l.IQpull) l.st.issueQueue = l.st.issueQueue) :
    scanResult cycle l [] l.st.issueQueue = l := by
  cases l with
  | mk st q w =>
    cases st
    simp_all [scanResult, stampIS, tagsOf]

/-- The selection loop of `issue` is one scan of the whole issue queue. -/
theorem issueSelect_eq (s : St) (cycle : Nat) :
    issueSelect s cycle =
      scanResult cycle { st := s, IQpull := 0, wakeupQ := [] } [] s.issueQueue := by
  unfold issueSelect
  cases hW : s.ISSUE_WIDTH with
  | zero =>
    rw [scanResult_full cycle _ [] s.issueQueue (by simp) (by simp [hW])]
    rfl
  | succ n =>
    rw [forLoop_front (issueBody cycle 0) (issueBody cycle) (fun _ => rfl), issueBody_eq]
    apply forLoop_fixed
    intro i
    rw [issueBody_eq]
    apply scanResult_idle
    · simpa [scanResult] using selectList_restList s.ISSUE_WIDTH s.issueQueue
    · simpa [scanResult] using restList_restList s.ISSUE_WIDTH s.issueQueue

/-! ## Issue: wakeup -/

@[simp] theorem wake1_instr (mem : Nat → iRecord_t) (tag : Int) (e : iqEntry_t) :
    (wake1 mem tag e).instr = e.instr := by
  by_cases h1 : (mem e.instr).op2_r = tag <;> by_cases h2 : (mem e.instr).op3_r = tag <;>
    simp [wake1, h1, h2]

@[simp] theorem wake1_age (mem : Nat → iRecord_t) (tag : Int) (e : iqEntry_t) :
    (wake1 mem tag e).age = e.age := by
  by_cases h1 : (mem e.instr).op2_r = tag <;> by_cases h2 : (mem e.instr).op3_r = tag <;>
    simp [wake1, h1, h2]

theorem wake1_src1 (mem : Nat → iRecord_t) (tag : Int) (e : iqEntry_t) :
    (wake1 mem tag e).src1_ready = (e.src1_ready || decide ((mem e.instr).op2_r = tag)) := by
  by_cases h1 : (mem e.instr).op2_r = tag <;> by_cases h2 : (mem e.instr).op3_r = tag <;>
    simp [wake1, h1, h2]

theorem wake1_src2 (mem : Nat → iRecord_t) (tag : Int) (e : iqEntry_t) :
    (wake1 mem tag e).src2_ready = (e.src2_ready || decide ((mem e.instr).op3_r = tag)) := by
  by_cases h1 : (mem e.instr).op2_r = tag <;> by_cases h2 : (mem e.instr).op3_r = tag <;>
    simp [wake1, h1, h2]

@[simp] theorem wakeAll_instr (mem : Nat → iRecord_t) (tags : List Int) (e : iqEntry_t) :
    (wakeAll mem tags e).instr = e.instr := by
  unfold wakeAll
  induction tags generalizing e with
  | nil => rfl
  | cons t ts ih => rw [List.foldl_cons, ih]; simp

@[simp] theorem wakeAll_age (mem : Nat → iRecord_t) (tags : List Int) (e : iqEntry_t) :
    (wakeAll mem tags e).age = e.age := by
  unfold wakeAll
  induction tags generalizing e with
  | nil => rfl
  | cons t ts ih => rw [List.foldl_cons, ih]; simp

/-- After the wakeup pass the first flag of an entry is set exactly when it
was set before or the entry's `op2_r` is one of the tags. -/
theorem wakeAll_src1 (mem : Nat → iRecord_t) (tags : List Int) (e : iqEntry_t) :
    (wakeAll mem tags e).src1_ready = true ↔
      (e.src1_ready = true ∨ (mem e.instr).op2_r ∈ tags) := by
  unfold wakeAll
  induction tags generalizing e with
  | nil => simp
  | cons t ts ih =>
    rw [List.foldl_cons, ih, wake1_src1]
    simp only [wake1_instr, Bool.or_eq_true, decide_eq_true_eq, List.mem_cons]
    tauto

/-- After the wakeup pass the second flag of an entry is set exactly when it
was set before or the entry's `op3_r` is one of the tags. -/
theorem wakeAll_src2 (mem : Nat → iRecord_t) (tags : List Int) (e : iqEntry_t) :
    (wakeAll mem tags e).src2_ready = true ↔
      (e.src2_ready = true ∨ (mem e.instr).op3_r ∈ tags) := by
  unfold wakeAll
  induction tags generalizing e with
  | nil => simp
  | cons t ts ih =>
    rw [List.foldl_cons, ih, wake1_src2]
    simp only [wake1_instr, Bool.or_eq_true, decide_eq_true_eq, List.mem_cons]
    tauto

theorem getElem?_mid {α : Type} (A : List α) (x : α) (C : List α) (n : Nat)
    (h : A.length = n) : (A ++ x :: C)[n]? = some x := by
  subst h
  rw [List.getElem?_append_right (le_refl _)]; simp

theorem set_mid {α : Type} (A : List α) (x y : α) (C : List α) (n : Nat)
    (h : A.length = n) : (A ++ x :: C).set n y = A ++ y :: C := by
  subst h
  induction A with
  | nil => rfl
  | cons a A ih => simp [ih]

theorem wakeEntry_eq (tag : Int) (j : Nat) (s : St) :
    wakeEntry tag j s =
      { s with issueQueue :=
                 match s.issueQueue[j]? with
                 | none => s.issueQueue
                 | some e => s.issueQueue.set j (wake1 s.mem tag e) } := by
  unfold wakeEntry
  cases h : s.issueQueue[j]? with
  | none => rfl
  | some e => simp only [wake1]

/-- The inner wakeup loop, run over `n` entries, has applied the tag to the
first `n` entries of the issue queue. -/
theorem wakeEntry_loop (tag : Int) (s : St) (n : Nat) :
    forLoop n (wakeEntry tag) s =
      { s with issueQueue :=
                 (s.issueQueue.take n).map (wake1 s.mem tag) ++ s.issueQueue.drop n } := by
  induction n with
  | zero => simp [forLoop]
  | succ n ih =>
    rw [forLoop_succ, ih, wakeEntry_eq]
    congr 1
    by_cases hn : n < s.issueQueue.length
    · have hd : s.issueQueue.drop n = s.issueQueue[n] :: s.issueQueue.drop (n + 1) :=
        List.drop_eq_getElem_cons hn
      have ht : s.issueQueue.take (n + 1) = s.issueQueue.take n ++ [s.issueQueue[n]] := by
        rw [List.take_succ, List.getElem?_eq_getElem hn]; rfl
      have hl : ((s.issueQueue.take n).map (wake1 s.mem tag)).length = n := by
        simp [Nat.min_eq_left (Nat.le_of_lt hn)]
      simp only [hd, ht, getElem?_mid _ _ _ n hl, set_mid _ _ _ _ n hl, List.map_append,
        List.map_cons, List.map_nil, List.append_assoc, List.singleton_append]
    · have hn' : s.issueQueue.length ≤ n := Nat.le_of_not_lt hn
      have h1 : s.issueQueue.take n = s.issueQueue := List.take_of_length_le hn'
      have h2 : s.issueQueue.drop n = [] := List.drop_of_length_le hn'
      have h3 : s.issueQueue.take (n + 1) = s.issueQueue := List.take_of_length_le (by omega)
      have h4 : s.issueQueue.drop (n + 1) = [] := List.drop_of_length_le (by omega)
      have h5 : (List.map (wake1 s.mem tag) s.issueQueue)[n]? = none := by
        simp [hn']
      simp only [h1, h2, h3, h4, List.append_nil, h5]

/-- The inner wakeup loop applies the tag to every entry. -/
theorem wakeEntry_all (tag : Int) (s : St) (n : Nat) (hn : n = s.issueQueue.length) :
    forLoop n (wakeEntry tag) s =
      { s with issueQueue := s.issueQueue.map (wake1 s.mem tag) } := by
  rw [wakeEntry_loop, hn]
  simp

/-- The outer wakeup loop, run over `n` tags, has applied the first `n` tags
to every entry. -/
theorem wakeTag_loop (tags : List Int) (s : St) (n : Nat) (hn : n ≤ tags.length) :
    forLoop n (wakeTag tags) s =
      { s with issueQueue := s.issueQueue.map (wakeAll s.mem (tags.take n)) } := by
  induction n with
  | zero =>
    have h0 : wakeAll s.mem [] = id := by
      funext e; rfl
    cases s
    simp [forLoop, h0]
  | succ n ih =>
    have hlt : n < tags.length := hn
    rw [forLoop_succ, ih (Nat.le_of_lt hlt)]
    unfold wakeTag
    rw [List.getElem?_eq_getElem hlt]
    simp only
    refine (wakeEntry_all _ _ _ ?_).trans ?_
    · rfl
    have ht : tags.take (n + 1) = tags.take n ++ [tags[n]] := by
      rw [List.take_succ, List.getElem?_eq_getElem hlt]; rfl
    have hf : wake1 s.mem tags[n] ∘ wakeAll s.mem (tags.take n) =
        wakeAll s.mem (tags.take n ++ [tags[n]]) := by
      funext e
      simp only [Function.comp, wakeAll, List.foldl_append, List.foldl_cons, List.foldl_nil]
    rw [ht]
    simp only [List.map_map, hf]

/-- The function `issue` in closed form: one selection scan of the issue
queue, then the wakeup of every entry left by every recorded tag. -/
theorem issue_eq (s : St) (cycle : Nat) :
    issue s cycle =
      { s with
          mem := stampIS cycle (issueSelected s) s.mem
          wBQueue := s.wBQueue ++ (issueSelected s).map (fun e => e.instr)
          issueQueue := (restList s.ISSUE_WIDTH s.issueQueue).map
            (wakeAll (stampIS cycle (issueSelected s) s.mem) (tagsOf s.mem (issueSelected s))) } := by
  unfold issue
  simp only [issueSelect_eq]
  rw [wakeTag_loop _ _ _ (le_refl _)]
  simp [scanResult, issueSelected]


/-! ## C3 -/

theorem stampIS_mem (cycle : Nat) (sel : List iqEntry_t) (mem : Nat → iRecord_t) (q : Nat) :
    stampIS cycle sel mem q = mem q ∨ stampIS cycle sel mem q = { mem q with IS := cycle } := by
  induction sel generalizing mem with
  | nil => left; rfl
  | cons e sel ih =>
    rw [stampIS_cons]
    rcases ih (upd mem e.instr { mem e.instr with IS := cycle }) with h | h
    · rw [h]
      by_cases hq : q = e.instr
      · right; subst hq; simp
      · left; simp [upd_other _ _ _ _ hq]
    · rw [h]
      right
      by_cases hq : q = e.instr
      · subst hq; simp
      · simp [upd_other _ _ _ _ hq]

theorem stampIS_stamp (cycle : Nat) (sel : List iqEntry_t) (mem : Nat → iRecord_t)
    (e : iqEntry_t) (he : e ∈ sel) : (stampIS cycle sel mem e.instr).IS = cycle := by
  induction sel generalizing mem with
  | nil => simp at he
  | cons x sel ih =>
    rw [stampIS_cons]
    rcases List.mem_cons.mp he with h | h
    · subst h
      rcases stampIS_mem cycle sel (upd mem e.instr { mem e.instr with IS := cycle }) e.instr
        with h1 | h1
      · rw [h1]; simp
      · rw [h1]
    · exact ih _ h

/-- C3: one call of `issue` on an issue queue in ascending age order selects
the first `min(W, k)` entries with both ready flags set (`k` the number of
such entries): it stamps `IS = cycle` on their instructions, appends them to
the writeback queue in ascending age order, removes exactly them from the
issue queue and keeps the others in their order, and every selected entry is
older than every ready entry left behind. -/
theorem C3_issue_oldest_first (s : St) (cycle : Nat)
    (hsorted : s.issueQueue.Pairwise (fun a b => a.age < b.age)) :
    issueSelected s = (s.issueQueue.filter iqReady).take s.ISSUE_WIDTH ∧
      (issueSelected s).length = min s.ISSUE_WIDTH (s.issueQueue.filter iqReady).length ∧
      (∀ e ∈ issueSelected s, ((issue s cycle).mem e.instr).IS = cycle) ∧
      (issue s cycle).wBQueue = s.wBQueue ++ (issueSelected s).map (fun e => e.instr) ∧
      (issueSelected s).Pairwise (fun a b => a.age < b.age) ∧
      (issue s cycle).issueQueue.map (fun e => (e.instr, e.age)) =
        (restList s.ISSUE_WIDTH s.issueQueue).map (fun e => (e.instr, e.age)) ∧
      (restList s.ISSUE_WIDTH s.issueQueue).Sublist s.issueQueue ∧
      (issueSelected s ++ restList s.ISSUE_WIDTH s.issueQueue).Perm s.issueQueue ∧
      (∀ e ∈ issueSelected s, ∀ e' ∈ restList s.ISSUE_WIDTH s.issueQueue,
        iqReady e' = true → e.age < e'.age) := by
  have hsel : issueSelected s = (s.issueQueue.filter iqReady).take s.ISSUE_WIDTH :=
    selectList_eq_take_filter _ _
  refine ⟨hsel, ?_, ?_, ?_, ?_, ?_, restList_sublist _ _, select_rest_perm _ _,
    selectList_oldest _ _ hsorted⟩
  · rw [hsel, List.length_take]
  · intro e he
    rw [issue_eq]
    exact stampIS_stamp cycle _ _ e he
  · rw [issue_eq]
  · rw [hsel]
    exact hsorted.sublist ((List.take_sublist _ _).trans (List.filter_sublist _))
  · rw [issue_eq]
    simp [List.map_map, Function.comp]

/-- C3 at a concrete state: the issue queue of the run over `chainTrace` (40
registers, width 1) when `issue` is called in cycle 8 holds the entries of
ages 1, 2 and 4, the first of them waiting; the entry of age 2 is selected. -/
theorem C3_issue_oldest_first_witness :
    (beforeIssue (stateAfter 40 1 chainTrace 8)).issueQueue.map (fun e => (e.age, iqReady e)) =
        [(1, false), (2, true), (4, true)] ∧
      (issueSelected (beforeIssue (stateAfter 40 1 chainTrace 8))).map (fun e => e.age) = [2] ∧
      (issue (beforeIssue (stateAfter 40 1 chainTrace 8)) 8).wBQueue =
        (beforeIssue (stateAfter 40 1 chainTrace 8)).wBQueue ++
          (issueSelected (beforeIssue (stateAfter 40 1 chainTrace 8))).map (fun e => e.instr) :=
  ⟨by decide, by decide,
    (C3_issue_oldest_first (beforeIssue (stateAfter 40 1 chainTrace 8)) 8 (by decide)).2.2.2.1⟩

/-! ## C4, C5 -/

theorem stampIS_op2_r (cycle : Nat) (sel : List iqEntry_t) (mem : Nat → iRecord_t) (q : Nat) :
    (stampIS cycle sel mem q).op2_r = (mem q).op2_r := by
  rcases stampIS_mem cycle sel mem q with h | h <;> rw [h]

theorem stampIS_op3_r (cycle : Nat) (sel : List iqEntry_t) (mem : Nat → iRecord_t) (q : Nat) :
    (stampIS cycle sel mem q).op3_r = (mem q).op3_r := by
  rcases stampIS_mem cycle sel mem q with h | h <;> rw [h]

theorem mem_tagsOf (mem : Nat → iRecord_t) (sel : List iqEntry_t) (t : Int) :
    t ∈ tagsOf mem sel ↔ ∃ x ∈ sel, t = (mem x.instr).op1_r ∨ t = (mem x.instr).op2_r := by
  simp [tagsOf, List.mem_flatMap]

/-- The tags that the selection loop of `issue` records. -/
theorem issueSelect_wakeupQ (s : St) (cycle : Nat) :
    (issueSelect s cycle).wakeupQ = tagsOf s.mem (issueSelected s) := by
  rw [issueSelect_eq]; simp [scanResult, issueSelected]

/-- The issue queue after `issue`: the entries not selected, woken by the
recorded tags. -/
theorem issue_issueQueue (s : St) (cycle : Nat) :
    (issue s cycle).issueQueue =
      (restList s.ISSUE_WIDTH s.issueQueue).map
        (wakeAll (issue s cycle).mem (issueSelect s cycle).wakeupQ) := by
  have hm : (issue s cycle).mem = stampIS cycle (issueSelected s) s.mem := by
    rw [issue_eq]
  rw [issueSelect_wakeupQ, hm]
  conv_lhs => rw [issue_eq]

/-- C4 (evaluation of the code at the failing input): in the run over
`chainTrace` (40 registers, width 1) the call of `issue` in cycle 7 selects
only instruction 3, a store with `op1_r = 8` whose immediate operand 33 is
in `op2_r`; the wakeup tags of the call are 8 and 33.  The entry of
instruction 2 waits with `src1_ready` false and `op2_r = 33`; no selected
instruction has `op1_r = 33`, and yet the entry has `src1_ready` true after
the call. -/
theorem C4_store_immediate_wakes_entry :
    tickIssued (stateAfter 40 1 chainTrace 7) = [3] ∧
      ((beforeIssue (stateAfter 40 1 chainTrace 7)).mem 3).iType = 'S' ∧
      ((beforeIssue (stateAfter 40 1 chainTrace 7)).mem 3).op1_r = 8 ∧
      ((beforeIssue (stateAfter 40 1 chainTrace 7)).mem 3).op2 = 33 ∧
      ((beforeIssue (stateAfter 40 1 chainTrace 7)).mem 3).op2_r = 33 ∧
      (issueSelect (beforeIssue (stateAfter 40 1 chainTrace 7)) 7).wakeupQ = [8, 33] ∧
      ((beforeIssue (stateAfter 40 1 chainTrace 7)).mem 2).op2_r = 33 ∧
      (beforeIssue (stateAfter 40 1 chainTrace 7)).issueQueue.map
          (fun e => (e.instr, e.src1_ready)) = [(1, false), (2, false), (3, true)] ∧
      (issue (beforeIssue (stateAfter 40 1 chainTrace 7)) 7).issueQueue.map
          (fun e => (e.instr, e.src1_ready)) = [(1, false), (2, true)] := by
  decide

/-- The wakeup pass of `issue` at every state: after one call the issue queue
holds the entries that were not selected, in their order, each with its flags
updated by the wakeup pass: `src1_ready` is true exactly when it was true
before the call or the entry's `op2_r` equals the `op1_r` or the `op2_r` of
some instruction selected in the call, and `src2_ready` likewise with the
entry's `op3_r`.  The tags that the code records are the `op1_r` and the
`op2_r` values of the selected instructions. -/
theorem issue_wakeup_flags (s : St) (cycle : Nat) :
    (issueSelect s cycle).wakeupQ =
        (issueSelected s).flatMap (fun x => [(s.mem x.instr).op1_r, (s.mem x.instr).op2_r]) ∧
      (issue s cycle).issueQueue =
        (restList s.ISSUE_WIDTH s.issueQueue).map
          (wakeAll (issue s cycle).mem (issueSelect s cycle).wakeupQ) ∧
      ∀ e : iqEntry_t,
        (wakeAll (issue s cycle).mem (issueSelect s cycle).wakeupQ e).instr = e.instr ∧
        (wakeAll (issue s cycle).mem (issueSelect s cycle).wakeupQ e).age = e.age ∧
        ((wakeAll (issue s cycle).mem (issueSelect s cycle).wakeupQ e).src1_ready = true ↔
          (e.src1_ready = true ∨ ∃ x ∈ issueSelected s,
            (s.mem e.instr).op2_r = (s.mem x.instr).op1_r ∨
              (s.mem e.instr).op2_r = (s.mem x.instr).op2_r)) ∧
        ((wakeAll (issue s cycle).mem (issueSelect s cycle).wakeupQ e).src2_ready = true ↔
          (e.src2_ready = true ∨ ∃ x ∈ issueSelected s,
            (s.mem e.instr).op3_r = (s.mem x.instr).op1_r ∨
              (s.mem e.instr).op3_r = (s.mem x.instr).op2_r)) := by
  have hq : (issueSelect s cycle).wakeupQ = tagsOf s.mem (issueSelected s) :=
    issueSelect_wakeupQ s cycle
  have hm : (issue s cycle).mem = stampIS cycle (issueSelected s) s.mem := by
    rw [issue_eq]
  refine ⟨by rw [hq]; rfl, issue_issueQueue s cycle, ?_⟩
  · intro e
    refine ⟨wakeAll_instr _ _ _, wakeAll_age _ _ _, ?_, ?_⟩
    · rw [wakeAll_src1, hq, hm, stampIS_op2_r, mem_tagsOf]
    · rw [wakeAll_src2, hq, hm, stampIS_op3_r, mem_tagsOf]

/-- C5 (evaluation of the code at the failing input): in the run over
`chainTrace` (40 registers, width 1) instruction 1 (`R,4,1,5`) is allocated
physical register 33 as destination, and instruction 2 (`R,6,4,7`) is renamed
against it (`op2_r = 33`).  The call of `issue` in cycle 8 selects
instruction 2 and the call in cycle 10 selects instruction 1: the run records
`IS = 8` for the consumer and `IS = 10` for its producer. -/
theorem C5_consumer_issues_before_producer :
    ((stateAfter 40 1 chainTrace 8).st.mem 1).iType = 'R' ∧
      ((stateAfter 40 1 chainTrace 8).st.mem 1).op1 = 4 ∧
      ((stateAfter 40 1 chainTrace 8).st.mem 1).op1_r = 33 ∧
      ((stateAfter 40 1 chainTrace 8).st.mem 2).iType = 'R' ∧
      ((stateAfter 40 1 chainTrace 8).st.mem 2).op2 = 4 ∧
      ((stateAfter 40 1 chainTrace 8).st.mem 2).op2_r = 33 ∧
      tickIssued (stateAfter 40 1 chainTrace 8) = [2] ∧
      tickIssued (stateAfter 40 1 chainTrace 9) = [4] ∧
      tickIssued (stateAfter 40 1 chainTrace 10) = [1] ∧
      (main 40 1 chainTrace).map (fun m => ((m.st.mem 2).IS, (m.st.mem 1).IS)) =
        some (8, 10) := by
  decide

/-- A store is selected together with the instruction it was renamed against:
in the run over `storeTrace` (40 registers, width 2) instruction 0
(`R,1,2,3`) is allocated physical register 32 and instruction 1 (`S,1,0,2`)
has `op1_r = 32`; the call of `issue` in cycle 4 selects both, so both carry
`IS = 4`. -/
theorem store_issues_with_producer :
    tickIssued (stateAfter 40 2 storeTrace 4) = [0, 1] ∧
      ((stateAfter 40 2 storeTrace 4).st.mem 0).op1 = 1 ∧
      ((stateAfter 40 2 storeTrace 4).st.mem 0).op1_r = 32 ∧
      ((stateAfter 40 2 storeTrace 4).st.mem 1).iType = 'S' ∧
      ((stateAfter 40 2 storeTrace 4).st.mem 1).op1 = 1 ∧
      ((stateAfter 40 2 storeTrace 4).st.mem 1).op1_r = 32 ∧
      ((stateAfter 40 2 storeTrace 5).st.mem 0).IS = 4 ∧
      ((stateAfter 40 2 storeTrace 5).st.mem 1).IS = 4 := by
  decide

/-- The selection of `issue` at every state: a call selects only entries
whose two ready flags were both set when the call began.  An entry that waits for a source when the
call begins is not selected by that call, also when the call broadcasts the
tag it waits for: it stays in the issue queue, with the flags the wakeup pass
gives it, and can be selected by the call of the next cycle at the
earliest. -/
theorem issue_selected_were_ready (s : St) (cycle : Nat) :
    (∀ e ∈ issueSelected s, e.src1_ready = true ∧ e.src2_ready = true) ∧
      (issue s cycle).wBQueue = s.wBQueue ++ (issueSelected s).map (fun e => e.instr) ∧
      (∀ e ∈ s.issueQueue, (e.src1_ready = false ∨ e.src2_ready = false) →
        e ∉ issueSelected s ∧
          wakeAll (issue s cycle).mem (issueSelect s cycle).wakeupQ e ∈
            (issue s cycle).issueQueue) := by
  have hsel : issueSelected s = (s.issueQueue.filter iqReady).take s.ISSUE_WIDTH :=
    selectList_eq_take_filter _ _
  have hready : ∀ e ∈ issueSelected s, iqReady e = true := by
    intro e he
    rw [hsel] at he
    exact (List.mem_filter.mp (List.mem_of_mem_take he)).2
  refine ⟨?_, by rw [issue_eq], ?_⟩
  · intro e he
    simpa [iqReady] using hready e he
  · intro e he hw
    have hnr : iqReady e = false := by
      rcases hw with h | h <;> simp [iqReady, h]
    have hnot : e ∉ issueSelected s := by
      intro h
      rw [hready e h] at hnr
      exact absurd hnr (by simp)
    refine ⟨hnot, ?_⟩
    have hrest : e ∈ restList s.ISSUE_WIDTH s.issueQueue := by
      have hp := (select_rest_perm s.ISSUE_WIDTH s.issueQueue).mem_iff (a := e)
      rcases List.mem_append.mp (hp.mpr he) with h | h
      · exact absurd h hnot
      · exact h
    rw [issue_issueQueue s cycle]
    exact List.mem_map_of_mem _ hrest

/-! ## Rename -/

theorem toI32_of_lt (h : Nat) (hh : h < 2147483648) : toI32 h = (h : Int) := by
  unfold toI32
  have h1 : h % 4294967296 = h := Nat.mod_eq_of_lt (by omega)
  rw [h1, if_pos hh]

theorem toU32_toI32 (h : Nat) (hh : h < 4294967296) : toU32 (toI32 h) = h := by
  unfold toU32 toI32
  have h1 : h % 4294967296 = h := Nat.mod_eq_of_lt hh
  rw [h1]
  split_ifs with hlt
  · omega
  · omega

theorem idx_toI32 (h : Nat) (hh : h < 2147483648) : idx (toI32 h) = h := by
  rw [toI32_of_lt h hh]; simp [idx]

/-- The state after the destination allocation of `rename`. -/
theorem allocDst_spec (s : St) (p h : Nat) (t : List Nat) :
    ((allocDst s p h t).mem p).op1_r = toI32 h ∧
      (allocDst s p h t).freeList = t ∧
      (allocDst s p h t).readyTable (idx (toI32 h)) = false ∧
      (allocDst s p h t).mapTable (idx (s.mem p).op1) = toU32 (toI32 h) ∧
      (∀ a, a ≠ idx (s.mem p).op1 → (allocDst s p h t).mapTable a = s.mapTable a) ∧
      ((allocDst s p h t).mem p).op1 = (s.mem p).op1 ∧
      ((allocDst s p h t).mem p).iType = (s.mem p).iType := by
  refine ⟨by simp [allocDst], rfl, by simp [allocDst], by simp [allocDst], ?_,
    by simp [allocDst], by simp [allocDst]⟩
  intro a ha
  simp [allocDst, upd_other _ _ _ _ ha]

/-- C6: when `rename` processes a slot that holds an instruction of kind R, I
or L with `op1 ≠ 0` while the free list is `h :: t`, then after the slot
`op1_r` is the old head `h` (as an `int`), the free list is the old tail `t`,
`readyTable[op1_r]` is false, `mapTable[op1]` is `op1_r` (as an
`unsigned int`) and no other cell of the map table has changed. -/
theorem C6_rename_allocates (cycle i : Nat) (l : RenameLoop) (p h : Nat) (t : List Nat)
    (hslot : (l.st.thePipelineState i).R = some p)
    (hkind : (l.st.mem p).iType = 'R' ∨ (l.st.mem p).iType = 'I' ∨ (l.st.mem p).iType = 'L')
    (hdst : (l.st.mem p).op1 ≠ 0)
    (hfree : l.st.freeList = h :: t) :
    ((renameBody cycle i l).st.mem p).op1_r = toI32 h ∧
      (renameBody cycle i l).st.freeList = t ∧
      (renameBody cycle i l).st.readyTable (idx (toI32 h)) = false ∧
      (renameBody cycle i l).st.mapTable (idx (l.st.mem p).op1) = toU32 (toI32 h) ∧
      (∀ a, a ≠ idx (l.st.mem p).op1 →
        (renameBody cycle i l).st.mapTable a = l.st.mapTable a) ∧
      (h < 2147483648 →
        ((renameBody cycle i l).st.mem p).op1_r = (h : Int) ∧
          (renameBody cycle i l).st.readyTable h = false ∧
          (renameBody cycle i l).st.mapTable (idx (l.st.mem p).op1) = h) := by
  have key : ((renameBody cycle i l).st.mem p).op1_r = toI32 h ∧
      (renameBody cycle i l).st.freeList = t ∧
      (renameBody cycle i l).st.readyTable (idx (toI32 h)) = false ∧
      (renameBody cycle i l).st.mapTable (idx (l.st.mem p).op1) = toU32 (toI32 h) ∧
      (∀ a, a ≠ idx (l.st.mem p).op1 →
        (renameBody cycle i l).st.mapTable a = l.st.mapTable a) := by
    have hR : ('I' : Char) ≠ 'R' := by decide
    have hL1 : ('L' : Char) ≠ 'R' := by decide
    have hL2 : ('L' : Char) ≠ 'I' := by decide
    rcases hkind with hk | hk | hk
    · refine ⟨?_, ?_, ?_, ?_, ?_⟩ <;>
        simp [renameBody, hslot, hfree, renameSwitch, hk, hdst, allocDst]
      intro a ha
      simp [upd_other _ _ _ _ ha]
    · refine ⟨?_, ?_, ?_, ?_, ?_⟩ <;>
        simp [renameBody, hslot, hfree, renameSwitch, hk, hR, allocDst]
      intro a ha
      simp [upd_other _ _ _ _ ha]
    · refine ⟨?_, ?_, ?_, ?_, ?_⟩ <;>
        simp [renameBody, hslot, hfree, renameSwitch, hk, hL1, hL2, hdst, allocDst]
      intro a ha
      simp [upd_other _ _ _ _ ha]
  refine ⟨key.1, key.2.1, key.2.2.1, key.2.2.2.1, key.2.2.2.2, ?_⟩
  intro hh
  refine ⟨?_, ?_, ?_⟩
  · rw [key.1, toI32_of_lt h hh]
  · have := key.2.2.1
    rwa [idx_toI32 h hh] at this
  · rw [key.2.2.2.1, toU32_toI32 h (by omega)]

/-! ## C10 -/

theorem storeInv_step (s : St) (cycle n : Nat) (l : RenameLoop) (hn : n < s.ISSUE_WIDTH)
    (hS : ∀ i < s.ISSUE_WIDTH, ∀ p, (s.thePipelineState i).R = some p → (s.mem p).iType = 'S')
    (inv : StoreInv s n l) : StoreInv s (n + 1) (renameBody cycle n l) := by
  have hlatch := inv.latch n
  cases hR : (s.thePipelineState n).R with
  | none =>
    rw [hR] at hlatch
    refine ⟨?_, ?_, ?_, ?_, ?_, ?_, ?_, ?_, ?_⟩
    · simp [renameBody, hlatch, inv.free]
    · simp [renameBody, hlatch, inv.map]
    · simp [renameBody, hlatch, inv.width]
    · intro j
      rw [← inv.latch j]
      by_cases hj : j = n
      · subst hj; simp [renameBody, hlatch]
      · simp [renameBody, hlatch, upd_other _ _ _ _ hj]
    · intro q; simp [renameBody, hlatch, inv.kind q]
    · intro q; simp [renameBody, hlatch, inv.op1 q]
    · intro q; simp [renameBody, hlatch, inv.op2 q]
    · intro q; simp [renameBody, hlatch, inv.op3 q]
    · intro hf j hj p hp
      rcases Nat.lt_succ_iff_lt_or_eq.mp hj with h | h
      · have := inv.done hf j h p hp
        simpa [renameBody, hlatch] using this
      · subst h; rw [hR] at hp; exact absurd hp (by simp)
  | some p =>
    rw [hR] at hlatch
    have hk : (l.st.mem p).iType = 'S' := by rw [inv.kind p]; exact hS n hn p hR
    have hSR : ('S' : Char) ≠ 'R' := by decide
    have hSI : ('S' : Char) ≠ 'I' := by decide
    have hSL : ('S' : Char) ≠ 'L' := by decide
    cases hfl : l.st.freeList with
    | nil =>
      have hs0 : s.freeList = [] := by rw [← inv.free, hfl]
      refine ⟨?_, ?_, ?_, ?_, ?_, ?_, ?_, ?_, ?_⟩
      · simp [renameBody, hlatch, hfl, hs0]
      · simp [renameBody, hlatch, hfl, inv.map]
      · simp [renameBody, hlatch, hfl, inv.width]
      · intro j
        rw [← inv.latch j]
        by_cases hj : j = n
        · subst hj; simp [renameBody, hlatch, hfl]
        · simp [renameBody, hlatch, hfl, upd_other _ _ _ _ hj]
      · intro q
        rw [← inv.kind q]
        by_cases hq : q = p
        · subst hq; simp [renameBody, hlatch, hfl]
        · simp [renameBody, hlatch, hfl, upd_other _ _ _ _ hq]
      · intro q
        rw [← inv.op1 q]
        by_cases hq : q = p
        · subst hq; simp [renameBody, hlatch, hfl]
        · simp [renameBody, hlatch, hfl, upd_other _ _ _ _ hq]
      · intro q
        rw [← inv.op2 q]
        by_cases hq : q = p
        · subst hq; simp [renameBody, hlatch, hfl]
        · simp [renameBody, hlatch, hfl, upd_other _ _ _ _ hq]
      · intro q
        rw [← inv.op3 q]
        by_cases hq : q = p
        · subst hq; simp [renameBody, hlatch, hfl]
        · simp [renameBody, hlatch, hfl, upd_other _ _ _ _ hq]
      · intro hf; exact absurd hs0 hf
    | cons h t =>
      refine ⟨?_, ?_, ?_, ?_, ?_, ?_, ?_, ?_, ?_⟩
      · simp [renameBody, hlatch, hfl, renameSwitch, hk, hSR, hSI, hSL, ← inv.free]
      · simp [renameBody, hlatch, hfl, renameSwitch, hk, hSR, hSI, hSL, inv.map]
      · simp [renameBody, hlatch, hfl, renameSwitch, hk, hSR, hSI, hSL, inv.width]
      · intro j
        rw [← inv.latch j]
        by_cases hj : j = n
        · subst hj; simp [renameBody, hlatch, hfl, renameSwitch, hk, hSR, hSI, hSL]
        · simp [renameBody, hlatch, hfl, renameSwitch, hk, hSR, hSI, hSL, upd_other _ _ _ _ hj]
      · intro q
        rw [← inv.kind q]
        by_cases hq : q = p
        · subst hq; simp [renameBody, hlatch, hfl, renameSwitch, hk, hSR, hSI, hSL]
        · simp [renameBody, hlatch, hfl, renameSwitch, hk, hSR, hSI, hSL, upd_other _ _ _ _ hq]
      · intro q
        rw [← inv.op1 q]
        by_cases hq : q = p
        · subst hq; simp [renameBody, hlatch, hfl, renameSwitch, hk, hSR, hSI, hSL]
        · simp [renameBody, hlatch, hfl, renameSwitch, hk, hSR, hSI, hSL, upd_other _ _ _ _ hq]
      · intro q
        rw [← inv.op2 q]
        by_cases hq : q = p
        · subst hq; simp [renameBody, hlatch, hfl, renameSwitch, hk, hSR, hSI, hSL]
        · simp [renameBody, hlatch, hfl, renameSwitch, hk, hSR, hSI, hSL, upd_other _ _ _ _ hq]
      · intro q
        rw [← inv.op3 q]
        by_cases hq : q = p
        · subst hq; simp [renameBody, hlatch, hfl, renameSwitch, hk, hSR, hSI, hSL]
        · simp [renameBody, hlatch, hfl, renameSwitch, hk, hSR, hSI, hSL, upd_other _ _ _ _ hq]
      · intro hf j hj p' hp'
        by_cases hq : p' = p
        · subst hq
          simp [renameBody, hlatch, hfl, renameSwitch, hk, hSR, hSI, hSL, inv.map, inv.op1,
            inv.op2, inv.op3]
        · have hj' : j < n := by
            rcases Nat.lt_succ_iff_lt_or_eq.mp hj with h1 | h1
            · exact h1
            · subst h1; rw [hR] at hp'; exact absurd (Option.some.inj hp').symm hq
          have := inv.done hf j hj' p' hp'
          simpa [renameBody, hlatch, hfl, renameSwitch, hk, hSR, hSI, hSL,
            upd_other _ _ _ _ hq] using this

theorem storeInv_loop (s : St) (cycle : Nat)
    (hS : ∀ i < s.ISSUE_WIDTH, ∀ p, (s.thePipelineState i).R = some p → (s.mem p).iType = 'S')
    (n : Nat) (hn : n ≤ s.ISSUE_WIDTH) :
    StoreInv s n (forLoop n (renameBody cycle) { st := s, renameStall := 0 }) := by
  induction n with
  | zero =>
    exact ⟨rfl, rfl, rfl, fun _ => rfl, fun _ => rfl, fun _ => rfl, fun _ => rfl, fun _ => rfl,
      fun _ j hj => absurd hj (Nat.not_lt_zero j)⟩
  | succ n ih =>
    rw [forLoop_succ]
    exact storeInv_step s cycle n _ hn hS (ih (Nat.le_of_succ_le hn))

/-- C10: when every occupied slot of the `R` latch holds an instruction of
kind S, `rename` leaves the free list and the map table as they were; and
when the free list is not empty, each such store has afterwards
`op1_r = mapTable[op1]`, `op3_r = mapTable[op3]` (as `int`) and
`op2_r = op2`. -/
theorem C10_rename_store_frame (s : St) (cycle : Nat)
    (hS : ∀ i < s.ISSUE_WIDTH, ∀ p, (s.thePipelineState i).R = some p →
      (s.mem p).iType = 'S') :
    (rename s cycle).1.freeList = s.freeList ∧
      (rename s cycle).1.mapTable = s.mapTable ∧
      (s.freeList ≠ [] → ∀ i < s.ISSUE_WIDTH, ∀ p, (s.thePipelineState i).R = some p →
        ((rename s cycle).1.mem p).op1_r = toI32 (s.mapTable (idx (s.mem p).op1)) ∧
          ((rename s cycle).1.mem p).op2_r = (s.mem p).op2 ∧
          ((rename s cycle).1.mem p).op3_r = toI32 (s.mapTable (idx (s.mem p).op3))) := by
  have inv := storeInv_loop s cycle hS s.ISSUE_WIDTH (le_refl _)
  exact ⟨inv.free, inv.map, inv.done⟩

/-! ## C6 to C10 at concrete states -/

/-- C6 at a concrete state: the first call of `rename` that sees `R,1,2,3`
(34 registers, width 1, cycle 2) with the free list `32, 33`. -/
theorem C6_rename_allocates_witness :
    ((beforeRename (stateAfter 34 1 [⟨'R', 1, 2, 3⟩] 2)).thePipelineState 0).R = some 0 ∧
      (beforeRename (stateAfter 34 1 [⟨'R', 1, 2, 3⟩] 2)).freeList = [32, 33] ∧
      ((renameBody 2 0
        { st := beforeRename (stateAfter 34 1 [⟨'R', 1, 2, 3⟩] 2), renameStall := 0 }).st.mem
          0).op1_r = ((32 : Nat) : Int) ∧
      (renameBody 2 0
        { st := beforeRename (stateAfter 34 1 [⟨'R', 1, 2, 3⟩] 2), renameStall := 0 }).st.freeList
          = [33] :=
  ⟨by decide, by decide,
    ((C6_rename_allocates 2 0
      { st := beforeRename (stateAfter 34 1 [⟨'R', 1, 2, 3⟩] 2), renameStall := 0 } 0 32 [33]
      (by decide) (Or.inl (by decide)) (by decide) (by decide)).2.2.2.2.2 (by decide)).1,
    (C6_rename_allocates 2 0
      { st := beforeRename (stateAfter 34 1 [⟨'R', 1, 2, 3⟩] 2), renameStall := 0 } 0 32 [33]
      (by decide) (Or.inl (by decide)) (by decide) (by decide)).2.1⟩

/-- C7 (evaluation of the code at the failing input): in the run over
`R,1,2,3`, `R,4,5,6` with 40 registers and width 1, at the tick boundary
after seven ticks physical register 32 is on the free list and is the
map-table image of architectural register 1, and physical register 33 is
neither on the free list, nor in the map-table image, nor the `op1_r` of an
instruction in the ROB. -/
theorem C7_register_in_two_places :
    (stateAfter 40 1 [⟨'R', 1, 2, 3⟩, ⟨'R', 4, 5, 6⟩] 7).st.freeList = [37, 38, 39, 32] ∧
      (stateAfter 40 1 [⟨'R', 1, 2, 3⟩, ⟨'R', 4, 5, 6⟩] 7).st.mapTable 1 = 32 ∧
      33 ∉ (stateAfter 40 1 [⟨'R', 1, 2, 3⟩, ⟨'R', 4, 5, 6⟩] 7).st.freeList ∧
      33 ∉ (List.range 32).map
        (stateAfter 40 1 [⟨'R', 1, 2, 3⟩, ⟨'R', 4, 5, 6⟩] 7).st.mapTable ∧
      (33 : Int) ∉ (stateAfter 40 1 [⟨'R', 1, 2, 3⟩, ⟨'R', 4, 5, 6⟩] 7).st.reorderBuff.map
        (fun r => ((stateAfter 40 1 [⟨'R', 1, 2, 3⟩, ⟨'R', 4, 5, 6⟩] 7).st.mem
          ((stateAfter 40 1 [⟨'R', 1, 2, 3⟩, ⟨'R', 4, 5, 6⟩] 7).st.robMem r).instr).op1_r) := by
  decide

/-- C8 (evaluation of the code at the failing inputs): with 34 registers and
width 1, in the run over `R,0,1,2` the ready-table entry of register 0 is
false after the call of `dispatch` in cycle 3 and at the following tick
boundary; in the run over `I,0,1,5` the map table sends architectural
register 0 to physical register 32 after the call of `rename` in cycle 2. -/
theorem C8_zero_register_changes :
    (beforeRename (stateAfter 34 1 [⟨'R', 0, 1, 2⟩] 3)).readyTable 0 = false ∧
      (stateAfter 34 1 [⟨'R', 0, 1, 2⟩] 4).st.readyTable 0 = false ∧
      (rename (beforeRename (stateAfter 34 1 [⟨'I', 0, 1, 5⟩] 2)) 2).1.mapTable 0 = 32 ∧
      (stateAfter 34 1 [⟨'I', 0, 1, 5⟩] 3).st.mapTable 0 = 32 := by
  decide

/-- C9 (evaluation of the code at the failing input): the call of `rename`
in cycle 2 of the run over `I,0,1,5` (34 registers, width 1) finds the free
list `32, 33` and `mapTable[0] = 0`, and leaves the free list `33` and
`mapTable[0] = 32`. -/
theorem C9_immediate_zero_destination :
    ((beforeRename (stateAfter 34 1 [⟨'I', 0, 1, 5⟩] 2)).thePipelineState 0).R = some 0 ∧
      (beforeRename (stateAfter 34 1 [⟨'I', 0, 1, 5⟩] 2)).freeList = [32, 33] ∧
      (beforeRename (stateAfter 34 1 [⟨'I', 0, 1, 5⟩] 2)).mapTable 0 = 0 ∧
      (rename (beforeRename (stateAfter 34 1 [⟨'I', 0, 1, 5⟩] 2)) 2).1.freeList = [33] ∧
      (rename (beforeRename (stateAfter 34 1 [⟨'I', 0, 1, 5⟩] 2)) 2).1.mapTable 0 = 32 := by
  decide

theorem storeRun_latch :
    ∀ i < (beforeRename (stateAfter 34 1 [⟨'S', 1, 0, 2⟩] 2)).ISSUE_WIDTH, ∀ p,
      ((beforeRename (stateAfter 34 1 [⟨'S', 1, 0, 2⟩] 2)).thePipelineState i).R = some p →
        ((beforeRename (stateAfter 34 1 [⟨'S', 1, 0, 2⟩] 2)).mem p).iType = 'S' := by
  intro i hi p hp
  have hw : (beforeRename (stateAfter 34 1 [⟨'S', 1, 0, 2⟩] 2)).ISSUE_WIDTH = 1 := by decide
  have hi0 : i = 0 := by omega
  subst hi0
  have h0 : ((beforeRename (stateAfter 34 1 [⟨'S', 1, 0, 2⟩] 2)).thePipelineState 0).R =
      some 0 := by decide
  rw [h0] at hp
  cases hp
  decide

/-- C10 at a concrete state: the call of `rename` in cycle 2 of the run over
`S,1,0,2` (34 registers, width 1). -/
theorem C10_rename_store_frame_witness :
    (rename (beforeRename (stateAfter 34 1 [⟨'S', 1, 0, 2⟩] 2)) 2).1.freeList =
        (beforeRename (stateAfter 34 1 [⟨'S', 1, 0, 2⟩] 2)).freeList ∧
      (beforeRename (stateAfter 34 1 [⟨'S', 1, 0, 2⟩] 2)).freeList = [32, 33] ∧
      ((rename (beforeRename (stateAfter 34 1 [⟨'S', 1, 0, 2⟩] 2)) 2).1.mem 0).op1_r = 1 :=
  ⟨(C10_rename_store_frame (beforeRename (stateAfter 34 1 [⟨'S', 1, 0, 2⟩] 2)) 2
      storeRun_latch).1, by decide, by decide⟩

/-! ## The driver loop -/

theorem tick_cycle (ICOUNT : Nat) (m m1 : MainSt) (h : tick ICOUNT m = some m1) :
    m1.cycle = (m.cycle + 1) % 4294967296 := by
  unfold tick at h
  simp only [Option.bind_eq_some, Option.map_eq_some'] at h
  obtain ⟨s4, _, f, _, hm⟩ := h
  rw [← hm]

/-- The `while` loop of `main` stops at cycle 15 at the latest: fuel beyond
`15 - cycle` iterations is never used. -/
theorem mainLoop_fuel (ICOUNT : Nat) (fuel : Nat) :
    ∀ m : MainSt, m.cycle < 15 → 15 ≤ m.cycle + fuel →
      mainLoop ICOUNT (fuel + 1) m = mainLoop ICOUNT fuel m := by
  induction fuel with
  | zero => intro m h1 h2; omega
  | succ fuel ih =>
    intro m h1 h2
    rw [mainLoop, mainLoop]
    by_cases hc : m.completedInsts < ICOUNT
    · rw [if_pos hc, if_pos hc]
      cases ht : tick ICOUNT m with
      | none => rfl
      | some m1 =>
        have hcy := tick_cycle ICOUNT m m1 ht
        have hcy' : m1.cycle = m.cycle + 1 := by rw [hcy]; omega
        simp only [Option.some_bind]
        by_cases h15 : m1.cycle = 15
        · rw [if_pos h15, if_pos h15]
        · rw [if_neg h15, if_neg h15]
          exact ih m1 (by omega) (by omega)
    · rw [if_neg hc, if_neg hc]

/-- A run of `main` ends without running out of fuel: its result is the same
for every amount of fuel from 15 on, and it is `none` only when a stage has
met undefined behaviour. -/
theorem main_fuel (P W : Nat) (tr : List TraceLine) (k : Nat) :
    mainLoop tr.length (15 + k) (initState P W tr) = main P W tr := by
  unfold main
  induction k with
  | zero =>
    exact (mainLoop_fuel tr.length 15 (initState P W tr)
      (by show (0 : Nat) < 15; omega) (by simp)).symm
  | succ k ih =>
    rw [← ih]
    exact mainLoop_fuel tr.length (15 + k) (initState P W tr)
      (by show (0 : Nat) < 15; omega) (by omega)

/-! ## C11, C14, C16 to C20: the code at concrete inputs -/

/-- C11 (evaluation of the code at the failing inputs): with 34 registers and
width 1, the call of `commit` in cycle 6 of the run over `S,1,0,2` retires the
store (instruction 0) and changes the free list from `32, 33` to `32, 33, 1`;
in the run over `R,0,1,2` it retires the instruction with `op1 = 0` and
changes the free list from `32, 33` to `32, 33, 0`. -/
theorem C11_commit_reclaims_always :
    (commitLoop (beforeCommit (stateAfter 34 1 [⟨'S', 1, 0, 2⟩] 6)) 0 6).retired = [0] ∧
      (beforeCommit (stateAfter 34 1 [⟨'S', 1, 0, 2⟩] 6)).freeList = [32, 33] ∧
      (commit (beforeCommit (stateAfter 34 1 [⟨'S', 1, 0, 2⟩] 6)) 0 6).1.freeList =
        [32, 33, 1] ∧
      (commitLoop (beforeCommit (stateAfter 34 1 [⟨'R', 0, 1, 2⟩] 6)) 0 6).retired = [0] ∧
      (beforeCommit (stateAfter 34 1 [⟨'R', 0, 1, 2⟩] 6)).freeList = [32, 33] ∧
      (commit (beforeCommit (stateAfter 34 1 [⟨'R', 0, 1, 2⟩] 6)) 0 6).1.freeList =
        [32, 33, 0] := by
  decide

/-- C14 (evaluation of the code at the failing input): in the run over
`fiveTrace` with 40 registers and width 2, the call of `dispatch` in cycle 3
finds instructions 0 and 1 in the `Di` latch and an empty ROB; afterwards the
issue queue holds entries for 0 and 1 with ages 0 and 1, and the ROB holds
twice the same `ROB_t`, which refers to instruction 1. -/
theorem C14_dispatch_rob_entries_alias :
    ((beforeDispatch (stateAfter 40 2 fiveTrace 3)).thePipelineState 0).Di = some 0 ∧
      ((beforeDispatch (stateAfter 40 2 fiveTrace 3)).thePipelineState 1).Di = some 1 ∧
      (beforeDispatch (stateAfter 40 2 fiveTrace 3)).reorderBuff = [] ∧
      (beforeDispatch (stateAfter 40 2 fiveTrace 3)).iqAge = 0 ∧
      (beforeRename (stateAfter 40 2 fiveTrace 3)).issueQueue.map (fun e => (e.instr, e.age)) =
        [(0, 0), (1, 1)] ∧
      (beforeRename (stateAfter 40 2 fiveTrace 3)).reorderBuff = [3, 3] ∧
      robView (beforeRename (stateAfter 40 2 fiveTrace 3)) = [(1, false), (1, false)] := by
  decide

/-- C16 (evaluation of the code at the failing input): in the run over
`earlyStoreTrace` with 40 registers and width 1, the call of `writeback` in
cycle 7 drains only instruction 2, a store with `op1_r = 33`.  The ROB holds
entries for instructions 1, 2 and 3, none ready; instruction 1 has
`op1_r = 33` and has never been issued.  After the call the entries of
instructions 1 and 2 are both ready. -/
theorem C16_writeback_marks_other_entries :
    (beforeWriteback (stateAfter 40 1 earlyStoreTrace 7)).wBQueue = [2] ∧
      ((beforeWriteback (stateAfter 40 1 earlyStoreTrace 7)).mem 2).iType = 'S' ∧
      ((beforeWriteback (stateAfter 40 1 earlyStoreTrace 7)).mem 2).op1_r = 33 ∧
      ((beforeWriteback (stateAfter 40 1 earlyStoreTrace 7)).mem 1).op1_r = 33 ∧
      ((beforeWriteback (stateAfter 40 1 earlyStoreTrace 7)).mem 1).IS = 0 ∧
      robView (beforeWriteback (stateAfter 40 1 earlyStoreTrace 7)) =
        [(1, false), (2, false), (3, false)] ∧
      robView (beforeIssue (stateAfter 40 1 earlyStoreTrace 7)) =
        [(1, true), (2, true), (3, false)] := by
  decide

/-- C17 (evaluation of the code at the failing input): in the run over
`R,1,2,3` with 34 registers and width 1, the call of `decode` in cycle 2 finds
the `Dc` slot empty and instruction 0 in the `R` slot, where the call of
cycle 1 put it; after the call instruction 0 is still in the `R` slot. -/
theorem C17_decode_keeps_stale_slot :
    ((beforeDecode (stateAfter 34 1 [⟨'R', 1, 2, 3⟩] 2)).thePipelineState 0).Dc = none ∧
      ((beforeDecode (stateAfter 34 1 [⟨'R', 1, 2, 3⟩] 2)).thePipelineState 0).R = some 0 ∧
      ((decode (beforeDecode (stateAfter 34 1 [⟨'R', 1, 2, 3⟩] 2)) 2 0).1.thePipelineState
        0).R = some 0 := by
  decide

/-- C18 (evaluation of the code at the failing input): in the run over
`fiveTrace` (N = 5) with width 2, the call of `fetch` in cycle 1 starts with
fetch offset 4.  It returns offset 5 and leaves both `F` slots empty:
instruction 4 is in no latch.  Instruction 4 has `fetchIndex = 4` and
`F = 0`; the stamp `F = 1` is on instruction 2, which left the `F` latch. -/
theorem C18_fetch_drops_last :
    (stateAfter 40 2 fiveTrace 1).fetchOffset = 4 ∧
      ((beforeFetch (stateAfter 40 2 fiveTrace 1)).thePipelineState 0).F = some 2 ∧
      ((beforeFetch (stateAfter 40 2 fiveTrace 1)).thePipelineState 1).F = some 3 ∧
      (fetch (beforeFetch (stateAfter 40 2 fiveTrace 1)) 1 0 5 4).map
          (fun r => (r.2, (r.1.thePipelineState 0).F, (r.1.thePipelineState 1).F)) =
        some (5, none, none) ∧
      (fetch (beforeFetch (stateAfter 40 2 fiveTrace 1)) 1 0 5 4).map
          (fun r => (latches r.1 0, latches r.1 1)) =
        some ([none, some 2, some 0, none], [none, some 3, some 1, none]) ∧
      (fetch (beforeFetch (stateAfter 40 2 fiveTrace 1)) 1 0 5 4).map
          (fun r => ((r.1.mem 4).fetchIndex, (r.1.mem 4).F, (r.1.mem 2).F)) =
        some (4, 0, 1) := by
  decide

/-- C19 (evaluation of the code at the failing input): the run over `R,1,2,3`
with 34 registers and width 1 ends after 7 ticks with one instruction
committed, and the stage cycles recorded for instruction 0 are
`F = 0, Dc = 1, R = 6, Di = 6, IS = 6, W = 6, C = 6`. -/
theorem C19_stage_cycles_not_increasing :
    (main 34 1 [⟨'R', 1, 2, 3⟩]).map (fun m => (m.cycle, m.completedInsts, stageCycles m 0)) =
      some (7, 1, [0, 1, 6, 6, 6, 6, 6]) := by
  decide

/-- C20 (evaluation of the code at the failing input): the run over `R,1,2,3`,
`R,4,5,6` with 34 registers and width 2 ends after 7 ticks; the stage cycles
recorded for instruction 0 are `0, 1, 6, 6, 6, 6, 6` and those recorded for
instruction 1 are all 0. -/
theorem C20_scenario_a_cycles :
    (main 34 2 [⟨'R', 1, 2, 3⟩, ⟨'R', 4, 5, 6⟩]).map
        (fun m => (m.cycle, stageCycles m 0, stageCycles m 1)) =
      some (7, [0, 1, 6, 6, 6, 6, 6], [0, 0, 0, 0, 0, 0, 0]) := by
  decide

/-! ## Dispatch -/

/-- C13: when `dispatch` processes a `Di` slot that holds an instruction of
kind R, I, L or S, it appends one entry for that instruction to the issue
queue, and with the ready table as it is at the slot's turn the flags of the
entry are: kind R, `src1_ready = readyTable[op2_r]` and
`src2_ready = readyTable[op3_r]`; kind I, `src1_ready = readyTable[op2_r]`
and `src2_ready = true`; kind L, `src1_ready = true` and
`src2_ready = readyTable[op3_r]`; kind S, both `true`. -/
theorem C13_dispatch_flags (cycle ROBentry i : Nat) (l : DispatchLoop) (p : Nat)
    (hslot : (l.st.thePipelineState i).Di = some p)
    (hkind : (l.st.mem p).iType = 'R' ∨ (l.st.mem p).iType = 'I' ∨
      (l.st.mem p).iType = 'L' ∨ (l.st.mem p).iType = 'S') :
    ∃ l' e, dispatchBody cycle ROBentry i l = some l' ∧
      l'.st.issueQueue = l.st.issueQueue ++ [e] ∧ e.instr = p ∧
      ((l.st.mem p).iType = 'R' →
        e.src1_ready = l.st.readyTable (idx (l.st.mem p).op2_r) ∧
          e.src2_ready = l.st.readyTable (idx (l.st.mem p).op3_r)) ∧
      ((l.st.mem p).iType = 'I' →
        e.src1_ready = l.st.readyTable (idx (l.st.mem p).op2_r) ∧ e.src2_ready = true) ∧
      ((l.st.mem p).iType = 'L' →
        e.src1_ready = true ∧ e.src2_ready = l.st.readyTable (idx (l.st.mem p).op3_r)) ∧
      ((l.st.mem p).iType = 'S' → e.src1_ready = true ∧ e.src2_ready = true) := by
  have hIR : ('I' : Char) ≠ 'R' := by decide
  have hLR : ('L' : Char) ≠ 'R' := by decide
  have hLI : ('L' : Char) ≠ 'I' := by decide
  have hSR : ('S' : Char) ≠ 'R' := by decide
  have hSI : ('S' : Char) ≠ 'I' := by decide
  have hSL : ('S' : Char) ≠ 'L' := by decide
  rcases hkind with hk | hk | hk | hk
  · refine ⟨_, _, by simp [dispatchBody, hslot, hk]; rfl, rfl, rfl, ?_, ?_, ?_, ?_⟩ <;>
      simp [hk, hIR.symm, hLR.symm, hSR.symm]
  · refine ⟨_, _, by simp [dispatchBody, hslot, hk, hIR]; rfl, rfl, rfl, ?_, ?_, ?_, ?_⟩ <;>
      simp [hk, hIR, hLI.symm, hSI.symm]
  · refine ⟨_, _, by simp [dispatchBody, hslot, hk, hLR, hLI]; rfl, rfl, rfl, ?_, ?_, ?_, ?_⟩ <;>
      simp [hk, hLR, hLI, hSL.symm]
  · refine ⟨_, _, by simp [dispatchBody, hslot, hk, hSR, hSI, hSL]; rfl, rfl, rfl,
      ?_, ?_, ?_, ?_⟩ <;>
      simp [hk, hSR, hSI, hSL]

/-- C13 at a concrete state: the call of `dispatch` in cycle 3 of the run over
`R,1,2,3` (34 registers, width 1), where the slot holds instruction 0 with
`op2_r = 2` and `op3_r = 3`, both ready. -/
theorem C13_dispatch_flags_witness :
    ((beforeDispatch (stateAfter 34 1 [⟨'R', 1, 2, 3⟩] 3)).thePipelineState 0).Di = some 0 ∧
      ((beforeDispatch (stateAfter 34 1 [⟨'R', 1, 2, 3⟩] 3)).mem 0).iType = 'R' ∧
      ∃ l' e,
        dispatchBody 3 3 0
            { st := beforeDispatch (stateAfter 34 1 [⟨'R', 1, 2, 3⟩] 3), slotFlags := none } =
          some l' ∧
        l'.st.issueQueue =
          (beforeDispatch (stateAfter 34 1 [⟨'R', 1, 2, 3⟩] 3)).issueQueue ++ [e] ∧
        e.instr = 0 ∧
        e.src1_ready = (beforeDispatch (stateAfter 34 1 [⟨'R', 1, 2, 3⟩] 3)).readyTable
          (idx ((beforeDispatch (stateAfter 34 1 [⟨'R', 1, 2, 3⟩] 3)).mem 0).op2_r) := by
  refine ⟨by decide, by decide, ?_⟩
  obtain ⟨l', e, h1, h2, h3, hR, -⟩ :=
    C13_dispatch_flags 3 3 0
      { st := beforeDispatch (stateAfter 34 1 [⟨'R', 1, 2, 3⟩] 3), slotFlags := none } 0
      (by decide) (Or.inl (by decide))
  exact ⟨l', e, h1, h2, h3, (hR (by decide)).1⟩

/-! ## Rename: the stall -/

theorem allocDst_pipe (s : St) (p h : Nat) (t : List Nat) :
    (allocDst s p h t).thePipelineState = s.thePipelineState := rfl

theorem renameSwitch_pipe (s : St) (p h : Nat) (t : List Nat) :
    (renameSwitch s p h t).thePipelineState = s.thePipelineState := by
  unfold renameSwitch
  simp only
  split_ifs <;> rfl

/-- An iteration of the loop of `rename` writes the latch of its own slot
only. -/
theorem renameBody_pipe_other (cycle j k : Nat) (l : RenameLoop) (hk : k ≠ j) :
    (renameBody cycle j l).st.thePipelineState k = l.st.thePipelineState k := by
  unfold renameBody
  simp only
  cases hR : (l.st.thePipelineState j).R with
  | none => simp [hR, upd_other _ _ _ _ hk]
  | some p =>
    cases hf : l.st.freeList with
    | nil => simp [hR, hf, upd_other _ _ _ _ hk]
    | cons h t => simp [hR, hf, renameSwitch_pipe, upd_other _ _ _ _ hk]

/-- The stall flag of `rename`, once set, stays set. -/
theorem renameBody_stall_stays (cycle j : Nat) (l : RenameLoop) (hs : l.renameStall = 1) :
    (renameBody cycle j l).renameStall = 1 := by
  unfold renameBody
  simp only
  cases hR : (l.st.thePipelineState j).R with
  | none => simp [hR, hs]
  | some p =>
    cases hf : l.st.freeList with
    | nil => simp [hR, hf]
    | cons h t => simp [hR, hf, hs]

/-- What the later iterations of the loop of `rename` keep of the state left
by the iteration of slot `i`. -/
theorem rename_loop_after (cycle i : Nat) (l0 : RenameLoop) (n : Nat) (hn : i + 1 ≤ n)
    (hs : (forLoop (i + 1) (renameBody cycle) l0).renameStall = 1) :
    (forLoop n (renameBody cycle) l0).renameStall = 1 ∧
      (forLoop n (renameBody cycle) l0).st.thePipelineState i =
        (forLoop (i + 1) (renameBody cycle) l0).st.thePipelineState i := by
  induction n with
  | zero => omega
  | succ n ih =>
    rcases Nat.lt_or_ge i n with h | h
    · have := ih h
      rw [forLoop_succ]
      exact ⟨renameBody_stall_stays _ _ _ this.1,
        (renameBody_pipe_other cycle n i _ (Nat.ne_of_lt h)).trans this.2⟩
    · have hin : i = n := by omega
      subst hin
      exact ⟨hs, rfl⟩

/-- C12 (evaluation of the code at the failing input): in the run over
`stallTrace` with 33 registers and width 1, the call of `rename` in cycle 3
finds instruction 1 (kind R, `op1 = 4`) in the `R` slot and the free list
empty.  It returns the stall flag 1, and after the call the `Di` slot holds
instruction 1.  The call of `dispatch` in cycle 4 puts it into the issue
queue, the call of `issue` in cycle 5 selects it, and the run records
`1, 2, 3, 4, 5, 6, 7` for it with its three renamed fields still 0. -/
theorem C12_stalled_slot_dispatched :
    ((beforeRename (stateAfter 33 1 stallTrace 3)).thePipelineState 0).R = some 1 ∧
      ((beforeRename (stateAfter 33 1 stallTrace 3)).mem 1).iType = 'R' ∧
      ((beforeRename (stateAfter 33 1 stallTrace 3)).mem 1).op1 = 4 ∧
      (beforeRename (stateAfter 33 1 stallTrace 3)).freeList = [] ∧
      (rename (beforeRename (stateAfter 33 1 stallTrace 3)) 3).2 = 1 ∧
      ((rename (beforeRename (stateAfter 33 1 stallTrace 3)) 3).1.thePipelineState 0).Di = some 1 ∧
      (beforeRename (stateAfter 33 1 stallTrace 4)).issueQueue.map (fun e => e.instr) = [1] ∧
      tickIssued (stateAfter 33 1 stallTrace 5) = [1] ∧
      (main 33 1 stallTrace).map
          (fun m => (stageCycles m 1, (m.st.mem 1).op1_r, (m.st.mem 1).op2_r, (m.st.mem 1).op3_r)) =
        some ([1, 2, 3, 4, 5, 6, 7], 0, 0, 0) := by
  decide

/-- The stall branch of `rename` at every state: if at the turn of slot `i` in
a call of `rename` the slot holds an instruction `p` and the free list is empty, then the call returns the
stall flag 1; the iteration of the slot allocates nothing (free list, map
table and ready table stay as they are, and of the record only the stamp
`R = cycle` is written), and after the call the instruction is in the `Di`
slot `i` as well as in the `R` slot `i`. -/
theorem rename_stall_advances (s : St) (cycle i p : Nat) (hi : i < s.ISSUE_WIDTH)
    (hslot : ((forLoop i (renameBody cycle)
      { st := s, renameStall := 0 }).st.thePipelineState i).R = some p)
    (hfree : (forLoop i (renameBody cycle) { st := s, renameStall := 0 }).st.freeList = []) :
    (rename s cycle).2 = 1 ∧
      ((rename s cycle).1.thePipelineState i).Di = some p ∧
      ((rename s cycle).1.thePipelineState i).R = some p ∧
      (forLoop (i + 1) (renameBody cycle) { st := s, renameStall := 0 }).st.freeList = [] ∧
      (forLoop (i + 1) (renameBody cycle) { st := s, renameStall := 0 }).st.mapTable =
        (forLoop i (renameBody cycle) { st := s, renameStall := 0 }).st.mapTable ∧
      (forLoop (i + 1) (renameBody cycle) { st := s, renameStall := 0 }).st.readyTable =
        (forLoop i (renameBody cycle) { st := s, renameStall := 0 }).st.readyTable ∧
      (forLoop (i + 1) (renameBody cycle) { st := s, renameStall := 0 }).st.mem p =
        { (forLoop i (renameBody cycle) { st := s, renameStall := 0 }).st.mem p with
          R := cycle } := by
  have hstep : forLoop (i + 1) (renameBody cycle) { st := s, renameStall := 0 } =
      renameBody cycle i (forLoop i (renameBody cycle) { st := s, renameStall := 0 }) := rfl
  have hstall : (forLoop (i + 1) (renameBody cycle) { st := s, renameStall := 0 }).renameStall
      = 1 := by
    rw [hstep]; simp [renameBody, hslot, hfree]
  have hafter := rename_loop_after cycle i { st := s, renameStall := 0 } s.ISSUE_WIDTH hi hstall
  refine ⟨hafter.1, ?_, ?_, ?_, ?_, ?_, ?_⟩
  · show ((forLoop s.ISSUE_WIDTH (renameBody cycle)
      { st := s, renameStall := 0 }).st.thePipelineState i).Di = some p
    rw [hafter.2, hstep]; simp [renameBody, hslot, hfree]
  · show ((forLoop s.ISSUE_WIDTH (renameBody cycle)
      { st := s, renameStall := 0 }).st.thePipelineState i).R = some p
    rw [hafter.2, hstep]; simp [renameBody, hslot, hfree]
  · rw [hstep]; simp [renameBody, hslot, hfree]
  · rw [hstep]; simp [renameBody, hslot, hfree]
  · rw [hstep]; simp [renameBody, hslot, hfree]
  · rw [hstep]; simp [renameBody, hslot, hfree]

/-- The stall branch at a concrete state: the call of `rename` in cycle 3 of
the run over `stallTrace` (33 registers, width 1), slot 0, instruction 1. -/
theorem rename_stall_advances_at_run :
    (0 : Nat) < (beforeRename (stateAfter 33 1 stallTrace 3)).ISSUE_WIDTH ∧
      (rename (beforeRename (stateAfter 33 1 stallTrace 3)) 3).2 = 1 ∧
      ((rename (beforeRename (stateAfter 33 1 stallTrace 3)) 3).1.thePipelineState 0).Di =
        some 1 :=
  ⟨by decide,
    (rename_stall_advances (beforeRename (stateAfter 33 1 stallTrace 3)) 3 0 1
      (by decide) (by decide) (by decide)).1,
    (rename_stall_advances (beforeRename (stateAfter 33 1 stallTrace 3)) 3 0 1
      (by decide) (by decide) (by decide)).2.1⟩

/-! ## Writeback -/

theorem markFrame_refl (s : St) : MarkFrame s s :=
  ⟨rfl, rfl, rfl, rfl, fun _ => rfl, fun _ h => h⟩

theorem markFrame_trans {s s' s'' : St} (h1 : MarkFrame s s') (h2 : MarkFrame s' s'') :
    MarkFrame s s'' :=
  ⟨h2.mem.trans h1.mem, h2.wbq.trans h1.wbq, h2.cq.trans h1.cq, h2.rob.trans h1.rob,
    fun q => (h2.instr q).trans (h1.instr q), fun a h => h2.mono a (h1.mono a h)⟩

theorem markRob_frame (t j : Nat) (s : St) : MarkFrame s (markRob t j s) := by
  unfold markRob
  cases hr : s.reorderBuff[j]? with
  | none => exact markFrame_refl s
  | some r =>
    simp only
    split_ifs with hm
    · refine ⟨rfl, rfl, rfl, rfl, ?_, ?_⟩
      · intro q
        by_cases hq : q = r
        · subst hq; simp
        · simp [upd_other _ _ _ _ hq]
      · intro a ha
        by_cases hq : a = idx (s.mem t).op1_r
        · subst hq; simp
        · simp [upd_other _ _ _ _ hq, ha]
    · exact markFrame_refl s

/-- An iteration of the search loop that meets a ROB entry with the `op1_r`
of the drained instruction sets the ready-table entry. -/
theorem markRob_hit (t j r : Nat) (s : St) (hr : s.reorderBuff[j]? = some r)
    (hm : (s.mem (s.robMem r).instr).op1_r = (s.mem t).op1_r) :
    (markRob t j s).readyTable (idx (s.mem t).op1_r) = true := by
  simp [markRob, hr, hm]

theorem markRob_loop_frame (t : Nat) (s : St) (n : Nat) :
    MarkFrame s (forLoop n (markRob t) s) := by
  induction n with
  | zero => exact markFrame_refl s
  | succ n ih => exact markFrame_trans ih (markRob_frame t n _)

theorem markRob_loop_hit (t : Nat) (s : St) (n j r : Nat) (hj : j < n)
    (hr : s.reorderBuff[j]? = some r)
    (hm : (s.mem (s.robMem r).instr).op1_r = (s.mem t).op1_r) :
    (forLoop n (markRob t) s).readyTable (idx (s.mem t).op1_r) = true := by
  induction n with
  | zero => omega
  | succ n ih =>
    rw [forLoop_succ]
    have hf := markRob_loop_frame t s n
    rcases Nat.lt_succ_iff_lt_or_eq.mp hj with h | h
    · exact (markRob_frame t n _).mono _ (ih h)
    · subst h
      have h1 : (forLoop j (markRob t) s).reorderBuff[j]? = some r := by rw [hf.rob]; exact hr
      have h2 : ((forLoop j (markRob t) s).mem
          ((forLoop j (markRob t) s).robMem r).instr).op1_r =
          ((forLoop j (markRob t) s).mem t).op1_r := by
        rw [hf.mem, hf.instr]; exact hm
      have := markRob_hit t j r _ h1 h2
      rwa [hf.mem] at this

theorem drainInv_op1_r {s : St} {cycle n : Nat} {s' : St} (inv : DrainInv s cycle n s')
    (q : Nat) : (s'.mem q).op1_r = (s.mem q).op1_r := by
  rcases inv.mem q with h | h <;> rw [h]

theorem drainInv_zero (s : St) (cycle : Nat) : DrainInv s cycle 0 s :=
  ⟨by simp, by simp, rfl, fun _ => rfl, fun _ => Or.inl rfl, by simp, by simp⟩

theorem drainInv_step (s : St) (cycle n : Nat) (s' : St) (inv : DrainInv s cycle n s') :
    DrainInv s cycle (n + 1) (writebackBody cycle n s') := by
  cases hq : s'.wBQueue with
  | nil =>
    have hlen : s.wBQueue.length ≤ n := by
      have h := inv.wbq
      rw [hq] at h
      have h2 := congrArg List.length h
      simp at h2
      omega
    have e1 : min n s.wBQueue.length = s.wBQueue.length := Nat.min_eq_right hlen
    have e2 : min (n + 1) s.wBQueue.length = s.wBQueue.length :=
      Nat.min_eq_right (Nat.le_succ_of_le hlen)
    have hb : writebackBody cycle n s' =
        { s' with thePipelineState :=
                    upd s'.thePipelineState n { s'.thePipelineState n with C := none } } := by
      simp [writebackBody, hq]
    rw [hb]
    refine ⟨?_, ?_, inv.rob, inv.instr, inv.mem, ?_, ?_⟩
    · rw [e2, ← e1]; exact inv.wbq
    · rw [e2, ← e1]; exact inv.cq
    · rw [e2, ← e1]; exact inv.stamp
    · rw [e2, ← e1]; exact inv.ready
  | cons t rest =>
    have hdrop : s.wBQueue.drop (min n s.wBQueue.length) = t :: rest := by
      rw [← inv.wbq, hq]
    have hlt : n < s.wBQueue.length := by
      by_contra hge
      have : s.wBQueue.drop (min n s.wBQueue.length) = [] := by
        rw [Nat.min_eq_right (Nat.le_of_not_lt hge)]; simp
      rw [this] at hdrop
      exact absurd hdrop (by simp)
    have e1 : min n s.wBQueue.length = n := Nat.min_eq_left (Nat.le_of_lt hlt)
    have e2 : min (n + 1) s.wBQueue.length = n + 1 := Nat.min_eq_left hlt
    rw [e1] at hdrop
    have hdrop2 : s.wBQueue.drop (n + 1) = rest := by
      have := congrArg List.tail hdrop
      simpa using this
    have htake : s.wBQueue.take (n + 1) = s.wBQueue.take n ++ [t] := by
      have h0 : s.wBQueue[n]? = some t := by
        have := congrArg List.head? hdrop
        simpa [List.head?_drop] using this
      rw [List.take_succ, h0]; rfl
    obtain ⟨sf, hsf, hfr, hhit⟩ : ∃ sf, writebackBody cycle n s' = sf ∧
        MarkFrame
          { s' with mem := upd s'.mem t { s'.mem t with W := cycle }
                    wBQueue := rest
                    commitQueue := s'.commitQueue ++ [t] } sf ∧
        ((∃ r ∈ s.reorderBuff, (s.mem (s.robMem r).instr).op1_r = (s.mem t).op1_r) →
          sf.readyTable (idx (s.mem t).op1_r) = true) := by
      refine ⟨_, rfl, ?_, ?_⟩
      · simp only [writebackBody, hq]
        split_ifs
        · exact markRob_loop_frame t _ _
        · exact markFrame_refl _
      · rintro ⟨r, hr, hm⟩
        obtain ⟨j, hj, hjr⟩ := List.getElem_of_mem hr
        have hne : s'.reorderBuff.isEmpty = false := by
          rw [inv.rob]
          cases hrob : s.reorderBuff with
          | nil => rw [hrob] at hr; simp at hr
          | cons a b => rfl
        simp only [writebackBody, hq, hne, if_true]
        have hop : ∀ q, ((upd s'.mem t { s'.mem t with W := cycle }) q).op1_r =
            (s.mem q).op1_r := by
          intro q
          by_cases hqt : q = t
          · subst hqt; simp [drainInv_op1_r inv]
          · simp [upd_other _ _ _ _ hqt, drainInv_op1_r inv]
        have := markRob_loop_hit t
          { s' with mem := upd s'.mem t { s'.mem t with W := cycle }
                    wBQueue := rest
                    commitQueue := s'.commitQueue ++ [t] }
          s'.reorderBuff.length j r (by rw [inv.rob]; exact hj)
          (by show s'.reorderBuff[j]? = some r
              rw [inv.rob, List.getElem?_eq_getElem hj, hjr])
          (by show ((upd s'.mem t { s'.mem t with W := cycle }) (s'.robMem r).instr).op1_r =
                ((upd s'.mem t { s'.mem t with W := cycle }) t).op1_r
              rw [hop, hop, inv.instr]; exact hm)
        have hop' := hop t
        simp only at this
        rw [hop'] at this
        exact this
    rw [hsf]
    refine ⟨?_, ?_, ?_, ?_, ?_, ?_, ?_⟩
    · rw [hfr.wbq, e2, hdrop2]
    · rw [hfr.cq, e2, htake]
      show s'.commitQueue ++ [t] = _
      rw [inv.cq, e1, List.append_assoc]
    · rw [hfr.rob]; exact inv.rob
    · intro q; rw [hfr.instr]; exact inv.instr q
    · intro q
      have hmq : sf.mem q = upd s'.mem t { s'.mem t with W := cycle } q := by rw [hfr.mem]
      rw [hmq]
      by_cases hqt : q = t
      · subst hqt
        right
        rcases inv.mem q with h | h <;> simp [h]
      · rw [upd_other _ _ _ _ hqt]; exact inv.mem q
    · intro p hp
      rw [e2, htake] at hp
      have hmp : sf.mem p = upd s'.mem t { s'.mem t with W := cycle } p := by rw [hfr.mem]
      rw [hmp]
      by_cases hpt : p = t
      · subst hpt; simp
      · rw [upd_other _ _ _ _ hpt]
        rcases List.mem_append.mp hp with h | h
        · exact inv.stamp p (by rw [e1]; exact h)
        · simp at h; exact absurd h hpt
    · intro p hp hex
      rw [e2, htake] at hp
      rcases List.mem_append.mp hp with h | h
      · exact hfr.mono _ (inv.ready p (by rw [e1]; exact h) hex)
      · have hpt : p = t := by simpa using h
        subst hpt
        exact hhit hex

theorem drainInv_loop (s : St) (cycle n : Nat) :
    DrainInv s cycle n (forLoop n (writebackBody cycle) s) := by
  induction n with
  | zero => exact drainInv_zero s cycle
  | succ n ih => exact drainInv_step s cycle n _ ih

/-- C15 (evaluation of the code at the failing input): in the run over
`fiveTrace` with 40 registers and width 2, the call of `writeback` in cycle 5
drains instructions 0 and 1.  Instruction 0 (kind R) has `op1_r = 32`; the
ROB holds the addresses 3, 3, 4, 4, so the two entries pushed in cycle 3 are
one object, which refers to instruction 1, and no entry refers to an
instruction with `op1_r = 32`.  After the call `readyTable[32]` is false. -/
theorem C15_ready_table_not_set :
    (beforeWriteback (stateAfter 40 2 fiveTrace 5)).wBQueue = [0, 1] ∧
      (beforeIssue (stateAfter 40 2 fiveTrace 5)).wBQueue = [] ∧
      ((beforeIssue (stateAfter 40 2 fiveTrace 5)).mem 0).W = 5 ∧
      ((beforeIssue (stateAfter 40 2 fiveTrace 5)).mem 0).iType = 'R' ∧
      ((beforeIssue (stateAfter 40 2 fiveTrace 5)).mem 0).op1_r = 32 ∧
      (beforeIssue (stateAfter 40 2 fiveTrace 5)).readyTable 32 = false ∧
      (beforeWriteback (stateAfter 40 2 fiveTrace 5)).reorderBuff = [3, 3, 4, 4] ∧
      robView (beforeWriteback (stateAfter 40 2 fiveTrace 5)) =
        [(1, false), (1, false), (3, false), (3, false)] := by
  decide

/-- The function `writeback` at every state: one call removes the first
`min(W, |WBQ|)` entries from the head of the writeback queue, in FIFO order
(they are appended in that order to the commit queue), and stamps
`W = cycle` on each removed instruction; it leaves
`readyTable[op1_r]` true for each removed instruction for which some ROB
entry refers to an instruction with the same `op1_r`. -/
theorem writeback_drains (s : St) (cycle : Nat) :
    (writeback s cycle).wBQueue =
        s.wBQueue.drop (min s.ISSUE_WIDTH s.wBQueue.length) ∧
      (writeback s cycle).commitQueue =
        s.commitQueue ++ s.wBQueue.take (min s.ISSUE_WIDTH s.wBQueue.length) ∧
      (∀ p ∈ s.wBQueue.take (min s.ISSUE_WIDTH s.wBQueue.length),
        ((writeback s cycle).mem p).W = cycle) ∧
      (∀ p ∈ s.wBQueue.take (min s.ISSUE_WIDTH s.wBQueue.length),
        (∃ r ∈ s.reorderBuff, (s.mem (s.robMem r).instr).op1_r = (s.mem p).op1_r) →
          (writeback s cycle).readyTable (idx (s.mem p).op1_r) = true) := by
  have inv := drainInv_loop s cycle s.ISSUE_WIDTH
  exact ⟨inv.wbq, inv.cq, inv.stamp, inv.ready⟩

/-! ## C21 to C25 and C27: the code at concrete inputs -/

/-- C21 (evaluation of the code at the failing input): the run over `R,1,2,3`,
`R,4,1,5` with 34 registers and width 1 ends after 9 ticks.  It records
`0, 1, 2, 3, 4, 5, 6` for instruction 0 (so `IS = 4`, `W = 5`) and
`F = 0, Dc = 2, R = 8, Di = 8, IS = 8, W = 8, C = 8` for instruction 1.  The
stamps `Di = 4` and `W = 7` of instruction 1 are in its record after 5 and
after 8 ticks, and are overwritten later. -/
theorem C21_scenario_b_cycles :
    (main 34 1 [⟨'R', 1, 2, 3⟩, ⟨'R', 4, 1, 5⟩]).map
        (fun m => (m.cycle, stageCycles m 0, stageCycles m 1)) =
      some (9, [0, 1, 2, 3, 4, 5, 6], [0, 2, 8, 8, 8, 8, 8]) ∧
      stageCycles (stateAfter 34 1 [⟨'R', 1, 2, 3⟩, ⟨'R', 4, 1, 5⟩] 5) 1 =
        [0, 2, 4, 4, 0, 0, 0] ∧
      stageCycles (stateAfter 34 1 [⟨'R', 1, 2, 3⟩, ⟨'R', 4, 1, 5⟩] 8) 1 =
        [0, 2, 7, 7, 7, 7, 0] := by
  decide

/-- C22 (evaluation of the code at the failing inputs): the run over
`tenTrace` (N = 10) with 64 registers and width 1 leaves the loop at cycle 15
with 9 instructions committed, and instruction 9 has no commit stamp; the run
over `stallTrace` (N = 3) with 40 registers and width 2 leaves the loop with
a count of 4. -/
theorem C22_loop_exit :
    tenTrace.length = 10 ∧
      (main 64 1 tenTrace).map (fun m => (m.cycle, m.completedInsts, (m.st.mem 9).C)) =
        some (15, 9, 0) ∧
      stallTrace.length = 3 ∧
      (main 40 2 stallTrace).map (fun m => (m.cycle, m.completedInsts)) = some (8, 4) := by
  decide

/-- C23 (evaluation of the code at the failing input): in the run over
`R,1,2,3` with 34 registers and width 1, at the tick boundary after 3 ticks
instruction 0 is in the `R` slot and in the `Di` slot, and at the tick
boundary after 5 ticks it is in an entry of the issue queue and in an entry
of the writeback queue. -/
theorem C23_instruction_in_two_places :
    latches (stateAfter 34 1 [⟨'R', 1, 2, 3⟩] 3).st 0 = [none, none, some 0, some 0] ∧
      (stateAfter 34 1 [⟨'R', 1, 2, 3⟩] 5).st.issueQueue.map (fun e => e.instr) = [0] ∧
      (stateAfter 34 1 [⟨'R', 1, 2, 3⟩] 5).st.wBQueue = [0] := by
  decide

/-- C24 (evaluation of the code at the failing inputs): in the run over
`R,1,2,3`, `R,4,5,6` with 34 registers and width 2 the call of `commit` in
cycle 6 finds the free list empty and leaves it `33, 33`; the run over
`S,1,0,2`, `S,1,0,3` with 34 registers and width 1 ends at a tick boundary
with the free list `32, 33, 1, 1`. -/
theorem C24_free_list_duplicates :
    (beforeCommit (stateAfter 34 2 [⟨'R', 1, 2, 3⟩, ⟨'R', 4, 5, 6⟩] 6)).freeList = [] ∧
      (beforeWriteback (stateAfter 34 2 [⟨'R', 1, 2, 3⟩, ⟨'R', 4, 5, 6⟩] 6)).freeList =
        [33, 33] ∧
      (main 34 1 [⟨'S', 1, 0, 2⟩, ⟨'S', 1, 0, 3⟩]).map (fun m => (m.cycle, m.st.freeList)) =
        some (8, [32, 33, 1, 1]) := by
  decide

/-- C25 (evaluation of the code at the failing input): in the run over
`unknownTrace` with 40 registers and width 2, the call of `dispatch` in
cycle 3 finds instruction 1, of kind `X`, in `Di` slot 1, with the issue queue
and the ROB empty; after the call the issue queue holds an entry for
instruction 1 with both flags set, and both ROB entries refer to
instruction 1.  It is issued in cycle 4, and the run ends with a count of 4
and the commit stamp `C = 7` on instruction 1. -/
theorem C25_unknown_kind_dispatched :
    ((beforeDispatch (stateAfter 40 2 unknownTrace 3)).thePipelineState 1).Di = some 1 ∧
      ((beforeDispatch (stateAfter 40 2 unknownTrace 3)).mem 1).iType = 'X' ∧
      (beforeDispatch (stateAfter 40 2 unknownTrace 3)).issueQueue = [] ∧
      (beforeDispatch (stateAfter 40 2 unknownTrace 3)).reorderBuff = [] ∧
      (beforeRename (stateAfter 40 2 unknownTrace 3)).issueQueue.map
          (fun e => (e.instr, e.src1_ready, e.src2_ready)) =
        [(0, true, true), (1, true, true)] ∧
      robView (beforeRename (stateAfter 40 2 unknownTrace 3)) = [(1, false), (1, false)] ∧
      tickIssued (stateAfter 40 2 unknownTrace 4) = [0, 1] ∧
      (main 40 2 unknownTrace).map (fun m => (m.completedInsts, (m.st.mem 1).C)) =
        some (4, 7) := by
  decide

/-- C27 (evaluation of the code at the failing inputs): with 34 registers and
width 1, the call of `rename` in cycle 2 of the run over `I,1,1,5` finds
`mapTable[1] = 1` and leaves instruction 0 with `op1_r = 32` and
`op2_r = 32`; in the run over `L,1,0,1` it leaves instruction 0 with
`op1_r = 32` and `op3_r = 32`. -/
theorem C27_source_renamed_to_own_destination :
    (beforeRename (stateAfter 34 1 [⟨'I', 1, 1, 5⟩] 2)).mapTable 1 = 1 ∧
      ((rename (beforeRename (stateAfter 34 1 [⟨'I', 1, 1, 5⟩] 2)) 2).1.mem 0).op1_r = 32 ∧
      ((rename (beforeRename (stateAfter 34 1 [⟨'I', 1, 1, 5⟩] 2)) 2).1.mem 0).op2_r = 32 ∧
      (beforeRename (stateAfter 34 1 [⟨'L', 1, 0, 1⟩] 2)).mapTable 1 = 1 ∧
      ((rename (beforeRename (stateAfter 34 1 [⟨'L', 1, 0, 1⟩] 2)) 2).1.mem 0).op1_r = 32 ∧
      ((rename (beforeRename (stateAfter 34 1 [⟨'L', 1, 0, 1⟩] 2)) 2).1.mem 0).op3_r = 32 := by
  decide

/-! ## The age order of the issue queue (C26) -/

theorem iqSame_refl (s : St) : IqSame s s := ⟨rfl, rfl, rfl⟩

theorem iqSame_trans {a b c : St} (h1 : IqSame a b) (h2 : IqSame b c) : IqSame a c :=
  ⟨h2.width.trans h1.width, h2.queue.trans h1.queue, h2.age.trans h1.age⟩

/-- A loop whose body keeps the issue queue keeps it. -/
theorem forLoop_iqSame {α : Type} (st : α → St) (body : Nat → α → α)
    (hb : ∀ i a, IqSame (st a) (st (body i a))) (n : Nat) (a : α) :
    IqSame (st a) (st (forLoop n body a)) := by
  induction n with
  | zero => exact iqSame_refl _
  | succ n ih => exact iqSame_trans ih (hb n _)

theorem forLoopM_iqSame {α : Type} (st : α → St) (body : Nat → α → Option α)
    (hb : ∀ i a b, body i a = some b → IqSame (st a) (st b)) (n : Nat) (a b : α)
    (h : forLoopM n body a = some b) : IqSame (st a) (st b) := by
  induction n generalizing b with
  | zero =>
    simp only [forLoopM, Option.some.injEq] at h
    subst h
    exact iqSame_refl _
  | succ n ih =>
    simp only [forLoopM, Option.bind_eq_some] at h
    obtain ⟨c, hc, hcb⟩ := h
    exact iqSame_trans (ih c hc) (hb n c b hcb)

theorem commit_iqSame (s : St) (k cycle : Nat) : IqSame s (commit s k cycle).1 := by
  refine forLoop_iqSame (fun l : CommitLoop => l.st) (commitBody cycle) ?_ s.ISSUE_WIDTH
    { st := s, committedInsts := k, commitPull := 0, retired := [] }
  intro i l
  unfold commitBody
  split
  · exact iqSame_refl _
  · split
    · exact ⟨rfl, rfl, rfl⟩
    · exact iqSame_refl _

theorem markRob_iqSame (t j : Nat) (s : St) : IqSame s (markRob t j s) := by
  unfold markRob
  split
  · exact iqSame_refl _
  · split
    · exact ⟨rfl, rfl, rfl⟩
    · exact iqSame_refl _

theorem writebackBody_iqSame (cycle i : Nat) (s : St) :
    IqSame s (writebackBody cycle i s) := by
  unfold writebackBody
  split
  · simp only
    split
    · refine iqSame_trans ?_
        (forLoop_iqSame (fun a : St => a) (markRob _) (fun j a => markRob_iqSame _ j a) _ _)
      exact ⟨rfl, rfl, rfl⟩
    · exact ⟨rfl, rfl, rfl⟩
  · exact ⟨rfl, rfl, rfl⟩

theorem writeback_iqSame (s : St) (cycle : Nat) : IqSame s (writeback s cycle) :=
  forLoop_iqSame (fun a : St => a) _ (fun i a => writebackBody_iqSame cycle i a) _ _

theorem renameSwitch_iqSame (s : St) (p h : Nat) (t : List Nat) :
    IqSame s (renameSwitch s p h t) := by
  unfold renameSwitch
  simp only
  split_ifs <;> exact ⟨rfl, rfl, rfl⟩

theorem renameBody_iqSame (cycle i : Nat) (l : RenameLoop) :
    IqSame l.st (renameBody cycle i l).st := by
  unfold renameBody
  simp only
  split
  · exact ⟨rfl, rfl, rfl⟩
  · split
    · refine iqSame_trans ?_ (renameSwitch_iqSame _ _ _ _)
      exact ⟨rfl, rfl, rfl⟩
    · exact ⟨rfl, rfl, rfl⟩

theorem rename_iqSame (s : St) (cycle : Nat) : IqSame s (rename s cycle).1 :=
  forLoop_iqSame (fun l : RenameLoop => l.st) (renameBody cycle)
    (fun i l => renameBody_iqSame cycle i l) s.ISSUE_WIDTH { st := s, renameStall := 0 }

theorem decodeBody_iqSame (cycle i : Nat) (s : St) : IqSame s (decodeBody cycle i s) := by
  unfold decodeBody
  split
  · exact ⟨rfl, rfl, rfl⟩
  · exact iqSame_refl _

theorem decode_iqSame (s : St) (cycle stall : Nat) : IqSame s (decode s cycle stall).1 :=
  forLoop_iqSame (fun a : St => a) _ (fun i a => decodeBody_iqSame cycle i a) _ _

theorem fetchBody_iqSame (cycle ICOUNT i : Nat) (l l' : FetchLoop)
    (h : fetchBody cycle ICOUNT i l = some l') : IqSame l.st l'.st := by
  unfold fetchBody at h
  simp only at h
  split at h
  · split at h
    · exact absurd h (by simp)
    · simp only [Option.some.injEq] at h
      subst h
      exact ⟨rfl, rfl, rfl⟩
  · simp only [Option.some.injEq] at h
    subst h
    refine iqSame_trans ?_
      (forLoop_iqSame (fun a : St => a) clearF (fun k a => ⟨rfl, rfl, rfl⟩) _ _)
    exact ⟨rfl, rfl, rfl⟩

theorem fetch_iqSame (s : St) (cycle stall ICOUNT fo : Nat) (r : St × Nat)
    (h : fetch s cycle stall ICOUNT fo = some r) : IqSame s r.1 := by
  unfold fetch at h
  simp only [Option.map_eq_some'] at h
  obtain ⟨l, hl, rfl⟩ := h
  exact forLoopM_iqSame (fun l : FetchLoop => l.st) _
    (fun i a b hab => fetchBody_iqSame cycle ICOUNT i a b hab) _ _ l hl

/-- The function `issue` removes entries of the issue queue without reordering
the rest, and leaves the ages and the age counter as they are. -/
theorem issue_ageOrdered (s : St) (cycle : Nat) (h : AgeOrdered s) :
    AgeOrdered (issue s cycle) ∧ (issue s cycle).iqAge = s.iqAge ∧
      (issue s cycle).ISSUE_WIDTH = s.ISSUE_WIDTH := by
  rw [issue_eq]
  refine ⟨⟨?_, ?_⟩, rfl, rfl⟩
  · show ((List.map _ (restList _ _)).map _).Pairwise _
    rw [List.map_map]
    have hf : ((fun e : iqEntry_t => e.age) ∘
        wakeAll (stampIS cycle (issueSelected s) s.mem) (tagsOf s.mem (issueSelected s))) =
        fun e => e.age := by
      funext e
      simp
    rw [hf]
    exact h.1.sublist ((restList_sublist _ _).map _)
  · intro e he
    have he' : e ∈ (restList s.ISSUE_WIDTH s.issueQueue).map
        (wakeAll (stampIS cycle (issueSelected s) s.mem) (tagsOf s.mem (issueSelected s))) := he
    simp only [List.mem_map] at he'
    obtain ⟨e0, he0, rfl⟩ := he'
    rw [wakeAll_age]
    exact h.2 e0 ((restList_sublist _ _).subset he0)

/-- An iteration of the loop of `dispatch` appends at most one entry, whose
age is the value of the age counter, and then advances the counter by one. -/
theorem dispatchBody_age (cycle ROBentry i : Nat) (l l' : DispatchLoop) (B : Nat)
    (hl : dispatchBody cycle ROBentry i l = some l') (ho : AgeOrdered l.st)
    (hB : l.st.iqAge ≤ B) (hlt : B + 1 < 4294967296) :
    AgeOrdered l'.st ∧ l'.st.iqAge ≤ B + 1 ∧ l'.st.ISSUE_WIDTH = l.st.ISSUE_WIDTH := by
  unfold dispatchBody at hl
  simp only at hl
  split at hl
  · simp only [Option.some.injEq] at hl
    subst hl
    exact ⟨ho, by omega, rfl⟩
  · split at hl
    · exact absurd hl (by simp)
    · simp only [Option.some.injEq] at hl
      subst hl
      have h1 : l.st.iqAge % 4294967296 = l.st.iqAge := Nat.mod_eq_of_lt (by omega)
      have h2 : (l.st.iqAge + 1) % 18446744073709551616 = l.st.iqAge + 1 :=
        Nat.mod_eq_of_lt (by omega)
      refine ⟨⟨?_, ?_⟩, ?_, rfl⟩
      · show (List.map (fun e : iqEntry_t => e.age) (l.st.issueQueue ++ [_])).Pairwise _
        rw [List.map_append, List.pairwise_append]
        refine ⟨ho.1, by simp, ?_⟩
        intro a ha b hb
        simp only [List.map_cons, List.map_nil, List.mem_singleton] at hb
        simp only [List.mem_map] at ha
        obtain ⟨e, he, rfl⟩ := ha
        rw [hb, h1]
        exact ho.2 e he
      · intro e he
        have he' : e ∈ l.st.issueQueue ++ [_] := he
        show e.age < (l.st.iqAge + 1) % 18446744073709551616
        rw [h2]
        rcases List.mem_append.mp he' with h | h
        · exact Nat.lt_succ_of_lt (ho.2 e h)
        · rw [List.mem_singleton.mp h]
          show l.st.iqAge % 4294967296 < _
          omega
      · show (l.st.iqAge + 1) % 18446744073709551616 ≤ B + 1
        omega

theorem dispatch_loop_age (cycle ROBentry : Nat) (a : DispatchLoop) (B : Nat)
    (ho : AgeOrdered a.st) (hB : a.st.iqAge ≤ B) (n : Nat) :
    ∀ b : DispatchLoop, B + n < 4294967296 →
      forLoopM n (dispatchBody cycle ROBentry) a = some b →
      AgeOrdered b.st ∧ b.st.iqAge ≤ B + n ∧ b.st.ISSUE_WIDTH = a.st.ISSUE_WIDTH := by
  induction n with
  | zero =>
    intro b _ h
    simp only [forLoopM, Option.some.injEq] at h
    subst h
    exact ⟨ho, hB, rfl⟩
  | succ n ih =>
    intro b hlt h
    simp only [forLoopM, Option.bind_eq_some] at h
    obtain ⟨c, hc, hcb⟩ := h
    obtain ⟨h1, h2, h3⟩ := ih c (by omega) hc
    obtain ⟨h4, h5, h6⟩ := dispatchBody_age cycle ROBentry n c b (B + n) hcb h1 h2 (by omega)
    exact ⟨h4, h5, h6.trans h3⟩

/-- A call of `dispatch` keeps the age order and advances the age counter by
at most the issue width. -/
theorem dispatch_age (s s' : St) (cycle B : Nat) (h : dispatch s cycle = some s')
    (ho : AgeOrdered s) (hB : s.iqAge ≤ B) (hlt : B + s.ISSUE_WIDTH < 4294967296) :
    AgeOrdered s' ∧ s'.iqAge ≤ B + s.ISSUE_WIDTH ∧ s'.ISSUE_WIDTH = s.ISSUE_WIDTH := by
  unfold dispatch at h
  simp only [Option.map_eq_some'] at h
  obtain ⟨l, hl, rfl⟩ := h
  exact dispatch_loop_age cycle s.robNext
    { st := { s with robNext := s.robNext + 1 }, slotFlags := none } B ho hB s.ISSUE_WIDTH l hlt hl

theorem ageOrdered_iqSame {s s' : St} (h : IqSame s s') (ho : AgeOrdered s) : AgeOrdered s' := by
  unfold AgeOrdered
  rw [h.queue, h.age]
  exact ho

theorem ageInv_iqSame {W B : Nat} {s s' : St} (h : IqSame s s') (hi : AgeInv W B s) :
    AgeInv W B s' :=
  ⟨ageOrdered_iqSame h hi.ordered, by rw [h.age]; exact hi.bound, by rw [h.width]; exact hi.width⟩

theorem ageInv_mono {W B B' : Nat} {s : St} (hB : B ≤ B') (hi : AgeInv W B s) :
    AgeInv W B' s :=
  ⟨hi.ordered, le_trans hi.bound hB, hi.width⟩

theorem ageInv_dispatch {W B : Nat} {s s' : St} (cycle : Nat) (h : dispatch s cycle = some s')
    (hi : AgeInv W B s) (hlt : B + W < 4294967296) : AgeInv W (B + W) s' := by
  have hw := hi.width
  obtain ⟨h1, h2, h3⟩ := dispatch_age s s' cycle B h hi.ordered hi.bound (by rw [hw]; exact hlt)
  exact ⟨h1, by rw [← hw]; exact h2, h3.trans hw⟩

/-- The invariant at the entry of every stage of the tick started from `m`. -/
theorem ageInv_stages (m : MainSt) (W B : Nat) (hi : AgeInv W B m.st)
    (hlt : B + W < 4294967296) :
    AgeInv W B (beforeCommit m) ∧ AgeInv W B (beforeWriteback m) ∧
      AgeInv W B (beforeIssue m) ∧ AgeInv W B (beforeDispatch m) ∧
      AgeInv W (B + W) (beforeRename m) ∧ AgeInv W (B + W) (beforeDecode m) ∧
      AgeInv W (B + W) (beforeFetch m) := by
  have h1 : AgeInv W B (beforeCommit m) :=
    ageInv_iqSame (show IqSame m.st (beforeCommit m) from ⟨rfl, rfl, rfl⟩) hi
  have h2 : AgeInv W B (beforeWriteback m) := ageInv_iqSame (commit_iqSame _ _ _) h1
  have h3 : AgeInv W B (beforeIssue m) :=
    ageInv_iqSame (writeback_iqSame (beforeWriteback m) m.cycle) h2
  have h4 : AgeInv W B (beforeDispatch m) := by
    obtain ⟨a, b, c⟩ := issue_ageOrdered (beforeIssue m) m.cycle h3.ordered
    exact ⟨a, by rw [show (beforeDispatch m).iqAge = _ from b]; exact h3.bound,
      (show (beforeDispatch m).ISSUE_WIDTH = _ from c).trans h3.width⟩
  have h5 : AgeInv W (B + W) (beforeRename m) := by
    unfold beforeRename
    cases hd : dispatch (issue (beforeIssue m) m.cycle) m.cycle with
    | none => exact ageInv_mono (Nat.le_add_right _ _) hi
    | some s => exact ageInv_dispatch m.cycle hd h4 hlt
  have h6 : AgeInv W (B + W) (beforeDecode m) := ageInv_iqSame (rename_iqSame _ _) h5
  have h7 : AgeInv W (B + W) (beforeFetch m) := ageInv_iqSame (decode_iqSame _ _ _) h6
  exact ⟨h1, h2, h3, h4, h5, h6, h7⟩

/-- One tick keeps the invariant, with the bound advanced by the width. -/
theorem ageInv_tick (ICOUNT : Nat) (m m1 : MainSt) (W B : Nat) (h : tick ICOUNT m = some m1)
    (hi : AgeInv W B m.st) (hlt : B + W < 4294967296) : AgeInv W (B + W) m1.st := by
  have h7 := (ageInv_stages m W B hi hlt).2.2.2.2.2.2
  unfold tick at h
  simp only [Option.bind_eq_some, Option.map_eq_some'] at h
  obtain ⟨s4, hs4, f, hf, rfl⟩ := h
  have hr : beforeRename m = s4 := by
    unfold beforeRename
    rw [show dispatch (issue (beforeIssue m) m.cycle) m.cycle = some s4 from hs4]
  have hF : beforeFetch m = (decode (rename s4 m.cycle).1 m.cycle (rename s4 m.cycle).2).1 := by
    unfold beforeFetch beforeDecode
    rw [hr]
  rw [hF] at h7
  exact ageInv_iqSame (fetch_iqSame _ _ _ _ _ f hf) h7

theorem ageInv_ticks (ICOUNT W : Nat) (m0 : MainSt) (hi : AgeInv W 0 m0.st) (n : Nat) :
    ∀ m : MainSt, n * W < 4294967296 → ticks ICOUNT n m0 = some m → AgeInv W (n * W) m.st := by
  induction n with
  | zero =>
    intro m _ h
    simp only [ticks, Option.some.injEq] at h
    subst h
    simpa using hi
  | succ n ih =>
    intro m hlt h
    simp only [ticks, Option.bind_eq_some] at h
    obtain ⟨c, hc, hcm⟩ := h
    have hmul : (n + 1) * W = n * W + W := Nat.succ_mul n W
    have := ageInv_tick ICOUNT c m W (n * W) hcm (ih c (by omega) hc) (by omega)
    rw [hmul]
    exact this

theorem ageInv_initState (P W : Nat) (tr : List TraceLine) : AgeInv W 0 (initState P W tr).st :=
  ⟨⟨List.Pairwise.nil, fun _ h => absurd h (List.not_mem_nil _)⟩, le_refl _, rfl⟩

theorem ageInv_stateAfter (P W : Nat) (tr : List TraceLine) (n : Nat)
    (hn : n * W < 4294967296) : AgeInv W (n * W) (stateAfter P W tr n).st := by
  unfold stateAfter
  cases h : ticks tr.length n (initState P W tr) with
  | none => exact ageInv_mono (Nat.zero_le _) (ageInv_initState P W tr)
  | some m => exact ageInv_ticks tr.length W _ (ageInv_initState P W tr) n m hn h

/-- The loop `ticks` unrolled at the front. -/
theorem ticks_front (ICOUNT : Nat) (n : Nat) (m : MainSt) :
    ticks ICOUNT (n + 1) m = (tick ICOUNT m).bind (ticks ICOUNT n) := by
  induction n with
  | zero =>
    show (some m).bind (tick ICOUNT) = (tick ICOUNT m).bind some
    simp
  | succ n ih =>
    show (ticks ICOUNT (n + 1) m).bind (tick ICOUNT) = _
    rw [ih, Option.bind_assoc]
    rfl

/-- The state that the `while` loop of `main` ends in is the state after some
number of ticks, at most the fuel. -/
theorem mainLoop_ticks (ICOUNT : Nat) (fuel : Nat) :
    ∀ m r : MainSt, mainLoop ICOUNT fuel m = some r →
      ∃ n, n ≤ fuel ∧ ticks ICOUNT n m = some r := by
  induction fuel with
  | zero => intro m r h; simp [mainLoop] at h
  | succ fuel ih =>
    intro m r h
    rw [mainLoop] at h
    by_cases hc : m.completedInsts < ICOUNT
    · rw [if_pos hc] at h
      cases ht : tick ICOUNT m with
      | none => rw [ht] at h; simp at h
      | some m1 =>
        rw [ht] at h
        simp only [Option.some_bind] at h
        by_cases h15 : m1.cycle = 15
        · rw [if_pos h15] at h
          refine ⟨1, by omega, ?_⟩
          rw [ticks_front, ht]
          exact h
        · rw [if_neg h15] at h
          obtain ⟨n, hn, hr⟩ := ih m1 r h
          refine ⟨n + 1, by omega, ?_⟩
          rw [ticks_front, ht]
          exact hr
    · rw [if_neg hc] at h
      exact ⟨0, by omega, h⟩

/-- The final state of a run of `main` is the state after at most 15 ticks. -/
theorem main_stateAfter (P W : Nat) (tr : List TraceLine) (m : MainSt)
    (h : main P W tr = some m) : ∃ n, n ≤ 15 ∧ stateAfter P W tr n = m := by
  have h15 : mainLoop tr.length 15 (initState P W tr) = some m := by
    rw [← h]
    exact main_fuel P W tr 0
  obtain ⟨n, hn, hr⟩ := mainLoop_ticks tr.length 15 _ _ h15
  refine ⟨n, hn, ?_⟩
  unfold stateAfter
  rw [hr]

/-! ## C26 -/

/-- C26: in every state that a run reaches, the issue queue read from front to
back has strictly increasing ages, all smaller than the age counter.  The
states are the tick boundary after `n` ticks and the entry of each of the
seven stages in the tick that follows; the 32-bit `age` field has room for
the `(n + 1) * W` values that the counter can have taken by then (a run of
`main` makes at most 15 ticks). -/
theorem C26_issue_queue_age_order (P W : Nat) (tr : List TraceLine) (n : Nat)
    (hn : (n + 1) * W < 4294967296) :
    AgeOrdered (stateAfter P W tr n).st ∧
      AgeOrdered (beforeCommit (stateAfter P W tr n)) ∧
      AgeOrdered (beforeWriteback (stateAfter P W tr n)) ∧
      AgeOrdered (beforeIssue (stateAfter P W tr n)) ∧
      AgeOrdered (beforeDispatch (stateAfter P W tr n)) ∧
      AgeOrdered (beforeRename (stateAfter P W tr n)) ∧
      AgeOrdered (beforeDecode (stateAfter P W tr n)) ∧
      AgeOrdered (beforeFetch (stateAfter P W tr n)) := by
  have hmul : (n + 1) * W = n * W + W := Nat.succ_mul n W
  have h0 := ageInv_stateAfter P W tr n (by omega)
  obtain ⟨h1, h2, h3, h4, h5, h6, h7⟩ :=
    ageInv_stages (stateAfter P W tr n) W (n * W) h0 (by omega)
  exact ⟨h0.ordered, h1.ordered, h2.ordered, h3.ordered, h4.ordered, h5.ordered, h6.ordered,
    h7.ordered⟩

/-- C26 (witness): the run over `chainTrace` with 40 registers and width 2.
After 6 ticks the issue queue holds the ages 2, 4, 5 and the age counter
is 6. -/
theorem C26_issue_queue_age_order_witness :
    (6 + 1) * 2 < 4294967296 ∧
      (stateAfter 40 2 chainTrace 6).st.issueQueue.map (fun e => e.age) = [2, 4, 5] ∧
      (stateAfter 40 2 chainTrace 6).st.iqAge = 6 ∧
      (AgeOrdered (stateAfter 40 2 chainTrace 6).st ∧
        AgeOrdered (beforeCommit (stateAfter 40 2 chainTrace 6)) ∧
        AgeOrdered (beforeWriteback (stateAfter 40 2 chainTrace 6)) ∧
        AgeOrdered (beforeIssue (stateAfter 40 2 chainTrace 6)) ∧
        AgeOrdered (beforeDispatch (stateAfter 40 2 chainTrace 6)) ∧
        AgeOrdered (beforeRename (stateAfter 40 2 chainTrace 6)) ∧
        AgeOrdered (beforeDecode (stateAfter 40 2 chainTrace 6)) ∧
        AgeOrdered (beforeFetch (stateAfter 40 2 chainTrace 6))) :=
  ⟨by decide, by decide, by decide, C26_issue_queue_age_order 40 2 chainTrace 6 (by decide)⟩

end OooScheduler
